import Mathlib

/-!
# Verification of the bounded gzip/JSON codec (`Compress` / `Decompress`)

Shallow embedding of `package compress`: `Compress` serializes a value as JSON
(`encoding/json`) streamed into a gzip writer (`compress/gzip`); `Decompress`
opens a gzip reader over the blob, wraps it in an `io.LimitedReader` with
`N = maxUncompressed` (defaulting to 4 MiB when `maxUncompressed <= 0`),
decodes one JSON value from it, and then drains the rest of the limited
stream with `io.Copy(io.Discard, lr)` so the gzip footer (CRC32 + ISIZE)
is verified.  Errors carry an error code (`InvalidParams` /
`InternalServerError`) and a message, as in `go-server/pkg/errors`.

Bytes are modelled as `Nat` (values < 256), byte streams as `List Nat`.
The gzip container is modelled at the container level: 10-byte header
(magic `1f 8b`, method 8, no flags), a DEFLATE body of stored blocks
(self-delimiting: block flag, LEN, NLEN, raw data), and the 8-byte footer
(CRC32, then length mod 2^32, both little-endian).  The JSON encoder/decoder
follows Go's behavior: the encoder appends a trailing newline, escapes
`"`, `\`, control characters and (HTML escaping, on by default) `<`, `>`,
`&`; the decoder reads from the limited stream in chunks of up to 512 bytes,
stops as soon as one syntactic value is complete, and treats a number that
runs into end-of-input as complete (numbers are modelled as integers; the
fraction/exponent forms never produced by the encoder are rejected).
-/

set_option maxRecDepth 8000

/-! ## Byte-level helpers -/

/-- Decimal digit byte (`'0'..'9'`). -/
def isDig (b : Nat) : Bool := 48 ≤ b && b ≤ 57

/-- JSON insignificant whitespace bytes: space, tab, newline, carriage return. -/
def isWsB (b : Nat) : Bool := b = 32 || b = 9 || b = 10 || b = 13

/-- Skip leading JSON whitespace. -/
def skipWsB : List Nat → List Nat
  | [] => []
  | b :: t => if isWsB b then skipWsB t else b :: t

/-- Lowercase hex digit byte for a nibble, as in Go's `encoding/json` hex table. -/
def hexChar (n : Nat) : Nat := if n < 10 then 48 + n else 87 + n

/-- Value of a hex digit byte, accepting both cases. -/
def hexV (b : Nat) : Option Nat :=
  if 48 ≤ b ∧ b ≤ 57 then some (b - 48)
  else if 97 ≤ b ∧ b ≤ 102 then some (b - 87)
  else if 65 ≤ b ∧ b ≤ 70 then some (b - 55)
  else none

/-- Single-character JSON escapes accepted after a backslash, with their byte values. -/
def unesc (b : Nat) : Option Nat :=
  if b = 34 then some 34
  else if b = 92 then some 92
  else if b = 47 then some 47
  else if b = 98 then some 8
  else if b = 102 then some 12
  else if b = 110 then some 10
  else if b = 114 then some 13
  else if b = 116 then some 9
  else none

/-- How Go's `encoding/json` encoder (HTML escaping on, the `json.Encoder`
default) emits one string byte: `\"`, `\\`, `\n`, `\r`, `\t`, `\u00XX` for the
other control bytes and for `<`, `>`, `&`; everything else passes through. -/
def escByte (b : Nat) : List Nat :=
  if b = 34 then [92, 34]
  else if b = 92 then [92, 92]
  else if b = 10 then [92, 110]
  else if b = 13 then [92, 114]
  else if b = 9 then [92, 116]
  else if b < 32 || b = 60 || b = 62 || b = 38 then
    [92, 117, 48, 48, hexChar (b / 16), hexChar (b % 16)]
  else [b]

/-- Escape a whole string (byte list). -/
def escList : List Nat → List Nat
  | [] => []
  | b :: t => escByte b ++ escList t

/-- Decimal digit bytes of `n`, most significant first (fueled so that the
kernel can evaluate it; `natChars` supplies sufficient fuel). -/
def natCharsA : Nat → Nat → List Nat
  | 0, _ => []
  | f + 1, n => if n < 10 then [48 + n] else natCharsA f (n / 10) ++ [48 + n % 10]

/-- Decimal digit bytes of `n`, most significant first. -/
def natChars (n : Nat) : List Nat := natCharsA (n + 1) n

/-- Decimal bytes of an integer: optional `-`, then digits, as Go prints an int. -/
def intChars (i : Int) : List Nat :=
  if i < 0 then 45 :: natChars i.natAbs else natChars i.toNat

/-! ## JSON values and the encoder -/

/-- A JSON value as produced/consumed by the codec.  Strings and object keys
are byte lists (Go strings are byte strings); numbers are integers (the only
numeric shape the round-trip exercises; Go would print them identically). -/
inductive JValue where
  | null
  | bool (b : Bool)
  | num (n : Int)
  | str (s : List Nat)
  | arr (xs : List JValue)
  | obj (ms : List (List Nat × JValue))

/-- Rendered object key: `"key":`. -/
def renderKey (k : List Nat) : List Nat := 34 :: escList k ++ [34, 58]

mutual
/-- Render a value to JSON bytes exactly as Go's `encoding/json` does
(no interior whitespace; map keys in the order of the model list). -/
def renderJ : JValue → List Nat
  | .null => [110, 117, 108, 108]
  | .bool true => [116, 114, 117, 101]
  | .bool false => [102, 97, 108, 115, 101]
  | .num i => intChars i
  | .str s => 34 :: escList s ++ [34]
  | .arr xs => 91 :: renderElems xs ++ [93]
  | .obj ms => 123 :: renderMembers ms ++ [125]

/-- Render array elements, comma separated. -/
def renderElems : List JValue → List Nat
  | [] => []
  | [x] => renderJ x
  | x :: y :: t => renderJ x ++ 44 :: renderElems (y :: t)

/-- Render object members, comma separated. -/
def renderMembers : List (List Nat × JValue) → List Nat
  | [] => []
  | [(k, v)] => renderKey k ++ renderJ v
  | (k, v) :: m :: t => renderKey k ++ renderJ v ++ 44 :: renderMembers (m :: t)
end

/-- What `json.NewEncoder(w).Encode(v)` writes: the value, then a newline. -/
def jsonEnc (v : JValue) : List Nat := renderJ v ++ [10]

/-! ## The JSON decoder

Three-way parse results mirror an incremental decoder fed from a stream:
`ok` (one complete value, with the unconsumed remainder), `bad` (a definite
syntax error, with the input from the offending byte), `more` (the input is a
prefix of some value; more bytes are needed).  The `atEOF` flag tells the
parser that the stream has ended, which turns a trailing digit run into a
complete number (Go's scanner does exactly this on EOF) and turns `more`
into a definite failure. -/

inductive PR where
  | ok (v : JValue) (rest : List Nat)
  | bad (rest : List Nat)
  | more

inductive PRl where
  | okl (vs : List JValue) (rest : List Nat)
  | badl (rest : List Nat)
  | morel

inductive PRm where
  | okm (ms : List (List Nat × JValue)) (rest : List Nat)
  | badm (rest : List Nat)
  | morem

inductive PRs where
  | oks (s : List Nat) (rest : List Nat)
  | bads (rest : List Nat)
  | mores

/-- Parse a string body after the opening quote.  `acc` holds decoded bytes in
reverse.  Control bytes are rejected, escapes are decoded; `\uXXXX` is decoded
for code points below 128 (the only ones the encoder emits).  Fueled (a step
consumes at least one input byte, so `input.length + 1` fuel always runs to
the real outcome). -/
def strBody : Nat → Bool → List Nat → List Nat → PRs
  | 0, _, _, _ => .mores
  | f + 1, atEOF, input, acc =>
      match input with
      | [] => if atEOF then .bads [] else .mores
      | b :: r =>
          if b = 34 then .oks acc.reverse r
          else if b = 92 then
            match r with
            | [] => if atEOF then .bads [] else .mores
            | 117 :: r2 =>
                match r2 with
                | h1 :: h2 :: h3 :: h4 :: r3 =>
                    match hexV h1, hexV h2, hexV h3, hexV h4 with
                    | some a, some b, some c, some d =>
                        let cp := ((a * 16 + b) * 16 + c) * 16 + d
                        if cp < 128 then strBody f atEOF r3 (cp :: acc) else .bads r2
                    | _, _, _, _ => .bads r2
                | _ => if atEOF then .bads r2 else .mores
            | e :: r2 =>
                match unesc e with
                | some b2 => strBody f atEOF r2 (b2 :: acc)
                | none => .bads r
          else if b < 32 then .bads (b :: r)
          else strBody f atEOF r (b :: acc)

/-- Split off the leading run of decimal digit bytes. -/
def digSpan : List Nat → List Nat × List Nat
  | [] => ([], [])
  | b :: t => if isDig b then (b :: (digSpan t).1, (digSpan t).2) else ([], b :: t)

/-- Accumulate digit bytes into a number, most significant first. -/
def valFold : Nat → List Nat → Nat
  | a, [] => a
  | a, d :: t => valFold (10 * a + (d - 48)) t

/-- A byte that would continue or extend a number token. -/
def numTail (b : Nat) : Bool := isDig b || b = 46 || b = 101 || b = 69

/-- A remainder in front of which a rendered value parses back unchanged:
nonempty (so the parser need not wait for more input after a number) and
headed by a byte that cannot extend a number token.  `[10]` (the encoder's
trailing newline), `,`, `]` and a closing brace all qualify. -/
def safeRest : List Nat → Bool
  | [] => false
  | b :: _ => !(numTail b)

/-- Parse a number whose input starts with a digit.  A leading `0` must be the
whole integer part; `.`/`e`/`E` continuations are rejected (integer model:
the encoder never produces them). -/
def numCore (atEOF : Bool) (input : List Nat) : PR :=
  match input with
  | 48 :: t =>
      match t with
      | [] => if atEOF then .ok (.num 0) [] else .more
      | b :: _ => if numTail b then .bad t else .ok (.num 0) t
  | _ =>
      match (digSpan input).2 with
      | [] => if atEOF then .ok (.num (Int.ofNat (valFold 0 (digSpan input).1))) [] else .more
      | b :: r =>
          if b = 46 || b = 101 || b = 69 then .bad (b :: r)
          else .ok (.num (Int.ofNat (valFold 0 (digSpan input).1))) (b :: r)

/-- Negate the numeric payload of a parse result. -/
def negPR : PR → PR
  | .ok (.num n) r => .ok (.num (-n)) r
  | x => x

/-- Parse a number token (`-` allowed first). -/
def parseNum (atEOF : Bool) (input : List Nat) : PR :=
  match input with
  | 45 :: t =>
      match t with
      | [] => if atEOF then .bad [] else .more
      | b :: _ => if isDig b then negPR (numCore atEOF t) else .bad t
  | _ => numCore atEOF input

/-- Match the tail of a literal (`null`/`true`/`false`) byte by byte. -/
def litTail (atEOF : Bool) (v : JValue) : List Nat → List Nat → PR
  | [], r => .ok v r
  | e :: es, r =>
      match r with
      | [] => if atEOF then .bad [] else .more
      | c :: r2 => if c = e then litTail atEOF v es r2 else .bad (c :: r2)

mutual
/-- Parse one JSON value (fueled; `tryParse` supplies ample fuel). -/
def parseVal : Nat → Bool → List Nat → PR
  | 0, _, _ => .more
  | f + 1, atEOF, input =>
      match skipWsB input with
      | [] => if atEOF then .bad [] else .more
      | 110 :: t => litTail atEOF .null [117, 108, 108] t
      | 116 :: t => litTail atEOF (.bool true) [114, 117, 101] t
      | 102 :: t => litTail atEOF (.bool false) [97, 108, 115, 101] t
      | 34 :: t =>
          match strBody (t.length + 1) atEOF t [] with
          | .oks s r => .ok (.str s) r
          | .bads r => .bad r
          | .mores => .more
      | 91 :: t =>
          match skipWsB t with
          | [] => if atEOF then .bad [] else .more
          | 93 :: r => .ok (.arr []) r
          | c :: r =>
              match parseElems f atEOF (c :: r) with
              | .okl vs r2 => .ok (.arr vs) r2
              | .badl r2 => .bad r2
              | .morel => .more
      | 123 :: t =>
          match skipWsB t with
          | [] => if atEOF then .bad [] else .more
          | 125 :: r => .ok (.obj []) r
          | c :: r =>
              match parseMembers f atEOF (c :: r) with
              | .okm ms r2 => .ok (.obj ms) r2
              | .badm r2 => .bad r2
              | .morem => .more
      | b :: t => if b = 45 || isDig b then parseNum atEOF (b :: t) else .bad (b :: t)

/-- Parse one-or-more comma separated array elements up to the closing `]`. -/
def parseElems : Nat → Bool → List Nat → PRl
  | 0, _, _ => .morel
  | f + 1, atEOF, input =>
      match parseVal f atEOF input with
      | .ok v r =>
          match skipWsB r with
          | [] => if atEOF then .badl [] else .morel
          | 44 :: r2 =>
              match parseElems f atEOF (skipWsB r2) with
              | .okl vs r3 => .okl (v :: vs) r3
              | .badl r3 => .badl r3
              | .morel => .morel
          | 93 :: r2 => .okl [v] r2
          | c :: r2 => .badl (c :: r2)
      | .bad r => .badl r
      | .more => .morel

/-- Parse one-or-more comma separated object members up to the closing brace. -/
def parseMembers : Nat → Bool → List Nat → PRm
  | 0, _, _ => .morem
  | f + 1, atEOF, input =>
      match skipWsB input with
      | [] => if atEOF then .badm [] else .morem
      | 34 :: t =>
          match strBody (t.length + 1) atEOF t [] with
          | .oks k r1 =>
              match skipWsB r1 with
              | [] => if atEOF then .badm [] else .morem
              | 58 :: r2 =>
                  match parseVal f atEOF (skipWsB r2) with
                  | .ok v r3 =>
                      match skipWsB r3 with
                      | [] => if atEOF then .badm [] else .morem
                      | 44 :: r4 =>
                          match parseMembers f atEOF (skipWsB r4) with
                          | .okm ms r5 => .okm ((k, v) :: ms) r5
                          | .badm r5 => .badm r5
                          | .morem => .morem
                      | 125 :: r4 => .okm [(k, v)] r4
                      | c :: r4 => .badm (c :: r4)
                  | .bad r3 => .badm r3
                  | .more => .morem
              | c :: r2 => .badm (c :: r2)
          | .bads r1 => .badm r1
          | .mores => .morem
      | c :: t => .badm (c :: t)
end

/-- Parse a buffered prefix of the decompressed stream: one decode attempt of
`json.Decoder` over everything buffered so far.  The fuel exceeds any need on
inputs of this length. -/
def tryParse (atEOF : Bool) (buf : List Nat) : PR := parseVal (2 * buf.length + 4) atEOF buf

/-! ## The gzip container -/

/-- One step of the bitwise (reflected, polynomial `0xEDB88320`) CRC-32 update. -/
def crc32Round (c : Nat) : Nat := if c % 2 = 1 then (c / 2) ^^^ 3988292384 else c / 2

/-- Fold one byte into a CRC-32 state (8 bit rounds). -/
def crc32Byte (c b : Nat) : Nat :=
  crc32Round (crc32Round (crc32Round (crc32Round
    (crc32Round (crc32Round (crc32Round (crc32Round (c ^^^ b % 256))))))))

/-- IEEE CRC-32 of a byte list, as gzip stores in its footer. -/
def crc32 (bs : List Nat) : Nat := (bs.foldl crc32Byte 4294967295) ^^^ 4294967295

/-- Two little-endian bytes of `n`. -/
def le16 (n : Nat) : List Nat := [n % 256, n / 256 % 256]

/-- Four little-endian bytes of `n`. -/
def le32 (n : Nat) : List Nat := [n % 256, n / 256 % 256, n / 65536 % 256, n / 16777216 % 256]

/-- Recombine four little-endian bytes. -/
def rd32 (a b c d : Nat) : Nat := a + 256 * b + 65536 * c + 16777216 * d

/-- DEFLATE body made of stored blocks: flag byte (1 = final), LEN, NLEN
(ones' complement of LEN), then LEN raw bytes; payloads longer than 65535
split into non-final blocks (fueled; `deflateStored` supplies enough). -/
def deflateA : Nat → List Nat → List Nat
  | 0, _ => []
  | f + 1, p =>
      if p.length ≤ 65535 then 1 :: (le16 p.length ++ (le16 (65535 - p.length) ++ p))
      else 0 :: (le16 65535 ++ (le16 0 ++ (p.take 65535 ++ deflateA f (p.drop 65535))))

/-- DEFLATE (stored blocks) of a payload. -/
def deflateStored (p : List Nat) : List Nat := deflateA (p.length + 1) p

/-- The 10-byte gzip member header the writer emits: magic `1f 8b`, method 8
(deflate), no flags, zero mtime, XFL 0, OS 255 (unknown). -/
def gzHeaderBytes : List Nat := [31, 139, 8, 0, 0, 0, 0, 0, 0, 255]

/-- What `gzip.NewWriter` + `Close` produce for a given uncompressed payload:
header, deflate body, CRC-32 footer, length-mod-2^32 footer. -/
def gzipCompress (p : List Nat) : List Nat :=
  gzHeaderBytes ++ deflateStored p ++ le32 (crc32 p) ++ le32 (p.length % 4294967296)

/-- How the decompressed stream ends: cleanly (footer present and matching), or
with an error the reader reports after delivering the payload bytes. -/
inductive GzTerm where
  | ok
  | truncated
  | checksum
  | corrupt

/-- After the final block delivered payload `pay`, read the 8-byte footer from
`tail`: a short footer is a truncation; mismatching CRC-32 or length is a
checksum failure; on a valid footer a further gzip member may follow
(multistream, as Go's reader handles by default), decoded by the continuation
`rec2` (the inflater at the remaining fuel). -/
def footStepG (rec2 : List Nat → List Nat → List Nat × GzTerm) (pay tail : List Nat) :
    List Nat × GzTerm :=
  match tail with
  | c0 :: c1 :: c2 :: c3 :: s0 :: s1 :: s2 :: s3 :: rest2 =>
      if rd32 c0 c1 c2 c3 = crc32 pay ∧ rd32 s0 s1 s2 s3 = pay.length % 4294967296 then
        match rest2 with
        | [] => (pay, .ok)
        | _ :: _ =>
            if 10 ≤ rest2.length then
              if rest2.take 4 = [31, 139, 8, 0] then rec2 (rest2.drop 10) pay
              else (pay, .corrupt)
            else (pay, .truncated)
      else (pay, .checksum)
  | _ => (pay, .truncated)

/-- Decode the deflate body and footer(s) of a gzip stream after the first
member's header: returns all payload bytes the reader would deliver and how
the stream terminates.  Fueled; a block consumes at least 5 input bytes, so
`inflate`'s seed never runs out. -/
def inflateA : Nat → List Nat → List Nat → List Nat × GzTerm
  | 0, _, acc => (acc, .corrupt)
  | f + 1, bs, acc =>
      match bs with
      | [] => (acc, .truncated)
      | flag :: r =>
          if flag = 0 ∨ flag = 1 then
            match r with
            | l0 :: l1 :: n0 :: n1 :: r2 =>
                if l0 + 256 * l1 + (n0 + 256 * n1) = 65535 then
                  if l0 + 256 * l1 ≤ r2.length then
                    if flag = 1 then
                      footStepG (fun b a => inflateA f b a)
                        (acc ++ r2.take (l0 + 256 * l1)) (r2.drop (l0 + 256 * l1))
                    else inflateA f (r2.drop (l0 + 256 * l1)) (acc ++ r2.take (l0 + 256 * l1))
                  else (acc ++ r2, .truncated)
                else (acc, .corrupt)
            | _ => (acc, .truncated)
          else (acc, .corrupt)

/-- Decode a whole deflate-body-plus-footer byte sequence. -/
def inflate (bs : List Nat) : List Nat × GzTerm := inflateA (bs.length + 1) bs []

/-- What `gzip.NewReader` checks eagerly: at least 10 header bytes with magic
`1f 8b`, method 8 and (in this model) no flag bits; returns the remainder. -/
def gzHeaderParse (blob : List Nat) : Option (List Nat) :=
  match blob with
  | b0 :: b1 :: b2 :: b3 :: _ :: _ :: _ :: _ :: _ :: _ :: rest =>
      if b0 = 31 ∧ b1 = 139 ∧ b2 = 8 ∧ b3 = 0 then some rest else none
  | _ => none

/-- Header check plus body decode: the whole stream a successful
`gzip.NewReader` would deliver, with its termination status. -/
def gzBody (blob : List Nat) : Option (List Nat × GzTerm) := (gzHeaderParse blob).map inflate

/-! ## Decompress -/

/-- Error codes of `go-server/pkg/errors` used by the codec. -/
inductive ErrCode where
  | invalidParams
  | internalServerError
deriving DecidableEq

/-- A classified error: code plus message. -/
structure Err where
  code : ErrCode
  msg : String
deriving DecidableEq

/-- The size-limit error message, with the effective limit interpolated. -/
def limitMsg (m : Int) : String := "decompressed size exceeds limit: " ++ toString m ++ " bytes"

/-- `4 * 1024 * 1024`: the default cap on the decompressed size. -/
def defaultMaxDecompressedSize : Int := 4 * 1024 * 1024

/-- Bytes consumed from the limited reader when the decoder stops at byte
index `i`: `json.Decoder` refills its buffer in chunks of up to 512 bytes. -/
def chunkCeil (i : Nat) : Nat := 512 * (i / 512 + 1)

/-- The decode phase: one `json.NewDecoder(lr).Decode(out)` over the limited
reader (`L` bytes of budget) wrapping the decompressed stream (`P`, ending in
`t`).  Returns the decoded value (if any) and the bytes consumed from the
limited reader.  At most `min L P.length` bytes are readable; if the budget
runs out first the decoder sees a budget end-of-file (the limited reader
checks `N <= 0` before touching gzip), otherwise the true stream end (where a
gzip termination error surfaces as a read error). -/
def decodePhase (P : List Nat) (t : GzTerm) (L : Nat) : Option JValue × Nat :=
  let A := min L P.length
  let buf := P.take A
  match tryParse false buf with
  | .ok v r => (some v, min (chunkCeil (A - r.length - 1)) A)
  | .bad r => (none, min (chunkCeil (A - r.length)) A)
  | .more =>
      if L ≤ P.length then
        match tryParse true buf with
        | .ok v _ => (some v, A)
        | _ => (none, A)
      else
        match t with
        | .ok =>
            match tryParse true buf with
            | .ok v _ => (some v, A)
            | _ => (none, A)
        | _ => (none, A)

/-- The drain phase: `io.Copy(io.Discard, lr)` over the rest of the limited
stream.  The limited reader yields end-of-file once its budget `N` is spent,
which `io.Copy` reports as success, so the gzip termination is only observed
when the budget outlasts the pending bytes.  Returns the copy error (if any)
and the remaining budget. -/
def drainPhase (pending : List Nat) (t : GzTerm) (N : Nat) : Option GzTerm × Nat :=
  if N ≤ pending.length then (none, 0)
  else
    match t with
    | .ok => (none, N - pending.length)
    | e => (some e, N - pending.length)

/-- Decode phase, classification, drain phase and final classification, after
the gzip reader delivered the stream `(P, t)` and the effective limit is `m`:
the body of `Decompress` from `json.NewDecoder(lr).Decode(out)` on.  A failed
phase is classified by the limited reader's remaining budget: spent
(`lr.N <= 0`) means the size-limit `InvalidParams` error, otherwise the
phase's own `InternalServerError`.  If the decode fails, `Decode` has not
unmarshalled into `*out`, so the destination keeps its prior contents `init`;
if the decode succeeds and the drain fails, `*out` already holds the decoded
value `v`, which is returned alongside the drain's error. -/
def afterGz (P : List Nat) (t : GzTerm) (init : JValue) (m : Int) : JValue × Option Err :=
  let d := decodePhase P t m.toNat
  match d.1 with
  | none =>
      if m.toNat - d.2 = 0 then (init, some ⟨.invalidParams, limitMsg m⟩)
      else (init, some ⟨.internalServerError, "failed to decode JSON"⟩)
  | some v =>
      let dr := drainPhase (P.drop d.2) t (m.toNat - d.2)
      match dr.1 with
      | none => (v, none)
      | some _ =>
          if dr.2 = 0 then (v, some ⟨.invalidParams, limitMsg m⟩)
          else (v, some ⟨.internalServerError, "failed to verify complete gzip stream"⟩)

/-- `Decompress[T](compressedData, out, maxUncompressed)`.  `outNil` models a
nil `out` pointer; `init` is the destination's prior contents (kept on every
failure that precedes a successful decode; a decoded value already written
into `*out` stays there even when the subsequent drain fails); the result
pairs the final destination contents with the error, if any. -/
def Decompress (compressedData : List Nat) (outNil : Bool) (init : JValue)
    (maxUncompressed : Int) : JValue × Option Err :=
  if compressedData.length = 0 then
    (init, some ⟨.invalidParams, "compressedData cannot be empty"⟩)
  else if outNil then
    (init, some ⟨.invalidParams, "output pointer cannot be nil"⟩)
  else
    let m := if maxUncompressed ≤ 0 then defaultMaxDecompressedSize else maxUncompressed
    match gzBody compressedData with
    | none => (init, some ⟨.internalServerError, "failed to create gzip reader"⟩)
    | some (P, t) => afterGz P t init m

/-! ## Compress -/

/-- The `any` argument of `Compress`: the untyped nil interface, a non-nil
interface holding a typed nil pointer (marshals as `null`), an encodable
value, or a value `encoding/json` cannot marshal (named by its Go type). -/
inductive GoValue where
  | nilInterface
  | nilPointer (typeName : String)
  | val (v : JValue)
  | unsupported (typeName : String)

/-- `Compress(data)`: nil check, then JSON-encode streamed into a gzip writer;
returns the produced bytes or (`nil`, error). -/
def Compress : GoValue → List Nat × Option Err
  | .nilInterface => ([], some ⟨.invalidParams, "data cannot be nil"⟩)
  | .nilPointer _ => (gzipCompress (jsonEnc .null), none)
  | .val v => (gzipCompress (jsonEnc v), none)
  | .unsupported t =>
      ([], some ⟨.internalServerError, "failed to encode JSON (type:" ++ t ++ ")"⟩)

/-! ## Substring test (for statements about error-message containment) -/

/-- `headMatch n h`: `n` is a leading segment of `h`. -/
def headMatch : List Char → List Char → Bool
  | [], _ => true
  | _ :: _, [] => false
  | a :: as, b :: bs => a = b && headMatch as bs

/-- `hasSub n h`: `n` occurs contiguously inside `h`. -/
def hasSub (n : List Char) : List Char → Bool
  | [] => headMatch n []
  | b :: t => headMatch n (b :: t) || hasSub n t

/-- Substring test on strings. -/
def strHasSub (n h : String) : Bool := hasSub n.data h.data

/-! ## Lemmas: decimal digit rendering -/

theorem natCharsA_fuel : ∀ (b f g n : Nat), n ≤ b → n < f → n < g → natCharsA f n = natCharsA g n := by
  intro b
  induction b with
  | zero =>
      intro f g n hb hf hg
      match f, g with
      | f + 1, g + 1 => interval_cases n; simp [natCharsA]
  | succ b ih =>
      intro f g n hb hf hg
      match f, g with
      | f + 1, g + 1 =>
        simp only [natCharsA]
        by_cases h : n < 10
        · simp [h]
        · have hd : n / 10 < n := Nat.div_lt_self (by omega) (by omega)
          simp only [if_neg h]
          rw [ih f g (n / 10) (by omega) (by omega) (by omega)]

theorem natChars_unfold (n : Nat) :
    natChars n = if n < 10 then [48 + n] else natChars (n / 10) ++ [48 + n % 10] := by
  by_cases h : n < 10
  · simp [natChars, natCharsA, h]
  · have hd : n / 10 < n := Nat.div_lt_self (by omega) (by omega)
    rw [if_neg h]
    rw [show natChars n = natCharsA n (n / 10) ++ [48 + n % 10] from by simp [natChars, natCharsA, h]]
    rw [natCharsA_fuel n n (n / 10 + 1) (n / 10) (by omega) (by omega) (by omega)]
    rfl

theorem natChars_digits (n : Nat) : ∀ c ∈ natChars n, 48 ≤ c ∧ c ≤ 57 := by
  induction n using Nat.strongRecOn with
  | _ n ih =>
    rw [natChars_unfold]
    by_cases h : n < 10
    · simp only [if_pos h, List.mem_singleton]
      rintro c rfl; omega
    · have hd : n / 10 < n := Nat.div_lt_self (by omega) (by omega)
      simp only [if_neg h]
      intro c hc
      rcases List.mem_append.mp hc with h1 | h2
      · exact ih (n / 10) hd c h1
      · have := List.mem_singleton.mp h2
        subst this
        have := Nat.mod_lt n (show 0 < 10 by omega)
        omega

theorem natChars_ne_nil (n : Nat) : natChars n ≠ [] := by
  rw [natChars_unfold]
  by_cases h : n < 10 <;> simp [h]

theorem natChars_head (n : Nat) (h : 1 ≤ n) : ∃ c t, natChars n = c :: t ∧ 49 ≤ c ∧ c ≤ 57 := by
  induction n using Nat.strongRecOn with
  | _ n ih =>
    rw [natChars_unfold]
    by_cases h10 : n < 10
    · exact ⟨48 + n, [], by simp [h10], by omega, by omega⟩
    · have hd : n / 10 < n := Nat.div_lt_self (by omega) (by omega)
      obtain ⟨c, t, heq, hc1, hc2⟩ := ih (n / 10) hd (by omega)
      exact ⟨c, t ++ [48 + n % 10], by simp [h10, heq], hc1, hc2⟩

theorem valFold_nil (a : Nat) : valFold a [] = a := rfl

theorem valFold_cons (a d : Nat) (t : List Nat) :
    valFold a (d :: t) = valFold (10 * a + (d - 48)) t := rfl

theorem valFold_append (xs : List Nat) : ∀ (a : Nat) (ys : List Nat),
    valFold a (xs ++ ys) = valFold (valFold a xs) ys := by
  induction xs with
  | nil => intro a ys; rfl
  | cons x t ih => intro a ys; rw [List.cons_append, valFold_cons, valFold_cons]; exact ih _ ys

theorem valFold_natChars (n : Nat) : ∀ a : Nat,
    valFold a (natChars n) = a * 10 ^ (natChars n).length + n := by
  induction n using Nat.strongRecOn with
  | _ n ih =>
    intro a
    rw [natChars_unfold]
    by_cases h : n < 10
    · rw [if_pos h, show ([48 + n] : List Nat) = [48 + n] ++ [] from rfl, valFold_append]
      simp only [valFold_nil, valFold_cons, List.length_append, List.length_singleton,
        List.length_nil, pow_one]
      omega
    · have hd : n / 10 < n := Nat.div_lt_self (by omega) (by omega)
      rw [if_neg h, valFold_append, ih (n / 10) hd a, valFold_cons, valFold_nil]
      simp only [List.length_append, List.length_singleton]
      have h48 : 48 + n % 10 - 48 = n % 10 := by omega
      rw [h48, pow_succ]
      generalize (natChars (n / 10)).length = L
      have e1 : a * (10 ^ L * 10) = a * 10 ^ L * 10 := by ring
      rw [e1]
      generalize a * 10 ^ L = c
      omega

theorem valFold_natChars0 (n : Nat) : valFold 0 (natChars n) = n := by
  rw [valFold_natChars n 0]
  simp

/-! ## Lemmas: digit spans and number parsing -/

theorem digSpan_cons (b : Nat) (t : List Nat) :
    digSpan (b :: t) = if isDig b then (b :: (digSpan t).1, (digSpan t).2) else ([], b :: t) := rfl

theorem digSpan_cons_not {b : Nat} (t : List Nat) (h : isDig b = false) :
    digSpan (b :: t) = ([], b :: t) := by rw [digSpan_cons, if_neg (by simp [h])]

theorem safeRest_facts {b : Nat} {t : List Nat} (h : safeRest (b :: t) = true) :
    isDig b = false ∧ b ≠ 46 ∧ b ≠ 101 ∧ b ≠ 69 := by
  have hb : numTail b = false := by
    have : safeRest (b :: t) = !(numTail b) := rfl
    rw [this] at h
    simpa using h
  simp only [numTail, Bool.or_eq_false_iff, decide_eq_false_iff_not] at hb
  exact ⟨hb.1.1.1, hb.1.1.2, hb.1.2, hb.2⟩

theorem digSpan_append {ds : List Nat} (hds : ∀ c ∈ ds, isDig c = true) {rest : List Nat}
    (hrest : digSpan rest = ([], rest)) : digSpan (ds ++ rest) = (ds, rest) := by
  induction ds with
  | nil => simpa using hrest
  | cons c t ih =>
      have hc : isDig c = true := hds c (by simp)
      have ht := ih (fun x hx => hds x (by simp [hx]))
      rw [List.cons_append, digSpan_cons, if_pos hc, ht]

theorem natChars_isDig (n : Nat) : ∀ c ∈ natChars n, isDig c = true := by
  intro c hc
  have := natChars_digits n c hc
  simp only [isDig, Bool.and_eq_true, decide_eq_true_eq]
  omega

theorem numCore_48 (eof : Bool) (t : List Nat) :
    numCore eof (48 :: t) =
      (match t with
       | [] => if eof then .ok (.num 0) [] else .more
       | b :: _ => if numTail b then .bad t else .ok (.num 0) t) := rfl

theorem numCore_pos {c : Nat} (h49 : 49 ≤ c) (h57 : c ≤ 57) (eof : Bool) (t : List Nat) :
    numCore eof (c :: t) =
      (match (digSpan (c :: t)).2 with
       | [] => if eof then .ok (.num (Int.ofNat (valFold 0 (digSpan (c :: t)).1))) [] else .more
       | b :: r =>
           if b = 46 || b = 101 || b = 69 then .bad (b :: r)
           else .ok (.num (Int.ofNat (valFold 0 (digSpan (c :: t)).1))) (b :: r)) := by
  unfold numCore
  split
  · rename_i heq
    injection heq with h1 _
    omega
  · rfl

theorem parseNum_45 (eof : Bool) (c : Nat) (X : List Nat) :
    parseNum eof (45 :: c :: X) =
      if isDig c then negPR (numCore eof (c :: X)) else .bad (c :: X) := rfl

theorem parseNum_digit {c : Nat} (h48 : 48 ≤ c) (h57 : c ≤ 57) (eof : Bool) (t : List Nat) :
    parseNum eof (c :: t) = numCore eof (c :: t) := by
  unfold parseNum
  split
  · rename_i heq
    injection heq with h1 _
    omega
  · rfl

theorem negPR_num (n : Int) (r : List Nat) : negPR (.ok (.num n) r) = .ok (.num (-n)) r := rfl

theorem parseNum_render (i : Int) {b : Nat} {t : List Nat} (h : safeRest (b :: t) = true) :
    parseNum false (intChars i ++ (b :: t)) = .ok (.num i) (b :: t) := by
  obtain ⟨hd, h46, h101, h69⟩ := safeRest_facts h
  have hspan0 : digSpan (b :: t) = ([], b :: t) := digSpan_cons_not t hd
  have hcond : (b = 46 || b = 101 || b = 69) = false := by simp [h46, h101, h69]
  by_cases hneg : i < 0
  · have habs : 1 ≤ i.natAbs := by omega
    obtain ⟨c, t0, heq, hc1, hc2⟩ := natChars_head i.natAbs habs
    have hspan : digSpan (c :: (t0 ++ b :: t)) = (c :: t0, b :: t) := by
      have h2 := digSpan_append (natChars_isDig i.natAbs) hspan0
      rwa [heq, List.cons_append] at h2
    rw [intChars, if_pos hneg, List.cons_append, heq, List.cons_append, parseNum_45,
      if_pos (show isDig c = true by simp only [isDig, Bool.and_eq_true, decide_eq_true_eq]; omega),
      numCore_pos (by omega) (by omega), hspan]
    show negPR (if (b = 46 || b = 101 || b = 69) = true then PR.bad (b :: t)
      else .ok (.num (Int.ofNat (valFold 0 (c :: t0)))) (b :: t)) = _
    rw [hcond]
    simp only [Bool.false_eq_true, if_false, negPR_num, ← heq, valFold_natChars0]
    rw [show -(Int.ofNat i.natAbs) = i from by rw [Int.ofNat_eq_natCast]; omega]
  · rw [intChars, if_neg hneg]
    by_cases h0 : i.toNat = 0
    · have hi0 : i = 0 := by omega
      rw [hi0]
      rw [show natChars (0 : Int).toNat = [48] from rfl]
      rw [List.cons_append, List.nil_append,
        parseNum_digit (by omega) (by omega), numCore_48]
      show (if numTail b = true then PR.bad (b :: t) else .ok (.num 0) (b :: t)) = _
      rw [show numTail b = false from by simp [numTail, hd, h46, h101, h69]]
      simp only [Bool.false_eq_true, if_false]
    · obtain ⟨c, t0, heq, hc1, hc2⟩ := natChars_head i.toNat (by omega)
      have hspan : digSpan (c :: (t0 ++ b :: t)) = (c :: t0, b :: t) := by
        have h2 := digSpan_append (natChars_isDig i.toNat) hspan0
        rwa [heq, List.cons_append] at h2
      rw [heq, List.cons_append, parseNum_digit (by omega) (by omega),
        numCore_pos (by omega) (by omega), hspan]
      show (if (b = 46 || b = 101 || b = 69) = true then PR.bad (b :: t)
        else .ok (.num (Int.ofNat (valFold 0 (c :: t0)))) (b :: t)) = _
      rw [hcond]
      simp only [Bool.false_eq_true, if_false, ← heq, valFold_natChars0]
      rw [show Int.ofNat i.toNat = i from by rw [Int.ofNat_eq_natCast]; omega]

/-! ## Lemmas: string escaping -/

theorem hexV_hexChar {x : Nat} (h : x < 16) : hexV (hexChar x) = some x := by
  by_cases h10 : x < 10
  · simp only [hexChar, if_pos h10, hexV]
    rw [if_pos (by omega)]
    congr 1
    omega
  · simp only [hexChar, if_neg h10, hexV]
    rw [if_neg (by omega), if_pos (by omega)]
    congr 1
    omega

theorem strBody_succ (f : Nat) (eof : Bool) (input acc : List Nat) :
    strBody (f + 1) eof input acc =
      (match input with
       | [] => if eof then .bads [] else .mores
       | b :: r =>
           if b = 34 then .oks acc.reverse r
           else if b = 92 then
             match r with
             | [] => if eof then .bads [] else .mores
             | 117 :: r2 =>
                 match r2 with
                 | h1 :: h2 :: h3 :: h4 :: r3 =>
                     match hexV h1, hexV h2, hexV h3, hexV h4 with
                     | some a, some b, some c, some d =>
                         let cp := ((a * 16 + b) * 16 + c) * 16 + d
                         if cp < 128 then strBody f eof r3 (cp :: acc) else .bads r2
                     | _, _, _, _ => .bads r2
                 | _ => if eof then .bads r2 else .mores
             | e :: r2 =>
                 match unesc e with
                 | some b2 => strBody f eof r2 (b2 :: acc)
                 | none => .bads r
           else if b < 32 then .bads (b :: r)
           else strBody f eof r (b :: acc)) := rfl

theorem strBody_quote (f : Nat) (eof : Bool) (r acc : List Nat) :
    strBody (f + 1) eof (34 :: r) acc = .oks acc.reverse r := rfl

theorem strBody_u (f : Nat) (eof : Bool) (x1 x2 x3 x4 : Nat) (r3 acc : List Nat) :
    strBody (f + 1) eof (92 :: 117 :: x1 :: x2 :: x3 :: x4 :: r3) acc =
      (match hexV x1, hexV x2, hexV x3, hexV x4 with
       | some a, some b, some c, some d =>
           if ((a * 16 + b) * 16 + c) * 16 + d < 128 then
             strBody f eof r3 ((((a * 16 + b) * 16 + c) * 16 + d) :: acc)
           else .bads (x1 :: x2 :: x3 :: x4 :: r3)
       | _, _, _, _ => .bads (x1 :: x2 :: x3 :: x4 :: r3)) := rfl

theorem strBody_other {b : Nat} (h34 : b ≠ 34) (h92 : b ≠ 92) (f : Nat) (eof : Bool)
    (r acc : List Nat) :
    strBody (f + 1) eof (b :: r) acc =
      if b < 32 then .bads (b :: r) else strBody f eof r (b :: acc) := by
  rw [strBody_succ]
  split
  next heq => exact absurd heq nofun
  next heq2 =>
    injection heq2 with hb hr
    subst hb
    subst hr
    rw [if_neg h34, if_neg h92]

theorem strBody_escByte (f : Nat) (eof : Bool) (b : Nat) (acc rest : List Nat) :
    strBody (f + 1) eof (escByte b ++ rest) acc = strBody f eof rest (b :: acc) := by
  by_cases h1 : b = 34
  · subst h1; rfl
  by_cases h2 : b = 92
  · subst h2; rfl
  by_cases h3 : b = 10
  · subst h3; rfl
  by_cases h4 : b = 13
  · subst h4; rfl
  by_cases h5 : b = 9
  · subst h5; rfl
  by_cases h6 : (b < 32 || b = 60 || b = 62 || b = 38) = true
  · have hb : b < 63 := by
      simp only [Bool.or_eq_true, decide_eq_true_eq] at h6
      omega
    rw [show escByte b = [92, 117, 48, 48, hexChar (b / 16), hexChar (b % 16)] from by
      unfold escByte
      rw [if_neg h1, if_neg h2, if_neg h3, if_neg h4, if_neg h5, if_pos h6]]
    show strBody (f + 1) eof (92 :: 117 :: 48 :: 48 :: hexChar (b / 16) :: hexChar (b % 16) :: rest)
      acc = _
    rw [strBody_u, show hexV 48 = some 0 from rfl,
      hexV_hexChar (show b / 16 < 16 by omega), hexV_hexChar (show b % 16 < 16 by omega)]
    show (if ((0 * 16 + 0) * 16 + b / 16) * 16 + b % 16 < 128 then
        strBody f eof rest ((((0 * 16 + 0) * 16 + b / 16) * 16 + b % 16) :: acc)
      else PRs.bads (48 :: 48 :: hexChar (b / 16) :: hexChar (b % 16) :: rest)) = _
    rw [show ((0 * 16 + 0) * 16 + b / 16) * 16 + b % 16 = b from by omega, if_pos (by omega)]
  · rw [show escByte b = [b] from by
      unfold escByte
      rw [if_neg h1, if_neg h2, if_neg h3, if_neg h4, if_neg h5, if_neg h6],
      List.singleton_append, strBody_other h1 h2]
    have : ¬ b < 32 := by
      simp only [Bool.or_eq_true, decide_eq_true_eq] at h6
      omega
    rw [if_neg this]

theorem escList_cons (b : Nat) (t : List Nat) : escList (b :: t) = escByte b ++ escList t := rfl

theorem strBody_escList (eof : Bool) (s : List Nat) : ∀ (f : Nat), s.length + 1 ≤ f →
    ∀ (acc rest : List Nat),
    strBody f eof (escList s ++ (34 :: rest)) acc = .oks (acc.reverse ++ s) rest := by
  induction s with
  | nil =>
      intro f hf acc rest
      match f, hf with
      | f + 1, _ =>
        show strBody (f + 1) eof (34 :: rest) acc = _
        rw [strBody_quote]
        simp
  | cons b t ih =>
      intro f hf acc rest
      match f, hf with
      | f + 1, hf =>
        rw [escList_cons, List.append_assoc, strBody_escByte,
          ih f (by simp at hf ⊢; omega) (b :: acc) rest]
        simp

/-! ## Lemmas: heads of rendered values, whitespace invariance -/

theorem skipWsB_cons (b : Nat) (t : List Nat) :
    skipWsB (b :: t) = if isWsB b then skipWsB t else b :: t := rfl

theorem skipWsB_not {b : Nat} (t : List Nat) (h : isWsB b = false) :
    skipWsB (b :: t) = b :: t := by rw [skipWsB_cons, h]; simp

theorem intChars_head (i : Int) : ∃ c t, intChars i = c :: t ∧ (c = 45 ∨ (48 ≤ c ∧ c ≤ 57)) := by
  by_cases hneg : i < 0
  · exact ⟨45, natChars i.natAbs, by rw [intChars, if_pos hneg], Or.inl rfl⟩
  · by_cases h0 : i.toNat = 0
    · refine ⟨48, [], ?_, Or.inr (by omega)⟩
      rw [intChars, if_neg hneg, h0]
      rfl
    · obtain ⟨c, t, heq, hc1, hc2⟩ := natChars_head i.toNat (by omega)
      exact ⟨c, t, by rw [intChars, if_neg hneg, heq], Or.inr (by omega)⟩

theorem renderJ_head (v : JValue) : ∃ c t, renderJ v = c :: t ∧ isWsB c = false ∧ c ≠ 93 := by
  cases v with
  | null => exact ⟨110, _, rfl, by decide, by decide⟩
  | bool b =>
      cases b with
      | true => exact ⟨116, _, rfl, by decide, by decide⟩
      | false => exact ⟨102, _, rfl, by decide, by decide⟩
  | num i =>
      obtain ⟨c, t, heq, hc⟩ := intChars_head i
      refine ⟨c, t, ?_, ?_, by omega⟩
      · rw [show renderJ (.num i) = intChars i from rfl, heq]
      · simp only [isWsB, Bool.or_eq_false_iff, decide_eq_false_iff_not]
        omega
  | str s => exact ⟨34, _, rfl, by decide, by decide⟩
  | arr xs => exact ⟨91, _, rfl, by decide, by decide⟩
  | obj ms => exact ⟨123, _, rfl, by decide, by decide⟩

theorem skipWsB_renderJ (v : JValue) (x : List Nat) :
    skipWsB (renderJ v ++ x) = renderJ v ++ x := by
  obtain ⟨c, t, heq, hws, _⟩ := renderJ_head v
  rw [heq, List.cons_append, skipWsB_not _ hws]

/-! ## Lemmas: one-step parser equations and per-shape value parses -/

theorem parseVal_succ (f : Nat) (eof : Bool) (input : List Nat) :
    parseVal (f + 1) eof input =
      (match skipWsB input with
       | [] => if eof then .bad [] else .more
       | 110 :: t => litTail eof .null [117, 108, 108] t
       | 116 :: t => litTail eof (.bool true) [114, 117, 101] t
       | 102 :: t => litTail eof (.bool false) [97, 108, 115, 101] t
       | 34 :: t =>
           match strBody (t.length + 1) eof t [] with
           | .oks s r => .ok (.str s) r
           | .bads r => .bad r
           | .mores => .more
       | 91 :: t =>
           match skipWsB t with
           | [] => if eof then .bad [] else .more
           | 93 :: r => .ok (.arr []) r
           | c :: r =>
               match parseElems f eof (c :: r) with
               | .okl vs r2 => .ok (.arr vs) r2
               | .badl r2 => .bad r2
               | .morel => .more
       | 123 :: t =>
           match skipWsB t with
           | [] => if eof then .bad [] else .more
           | 125 :: r => .ok (.obj []) r
           | c :: r =>
               match parseMembers f eof (c :: r) with
               | .okm ms r2 => .ok (.obj ms) r2
               | .badm r2 => .bad r2
               | .morem => .more
       | b :: t => if b = 45 || isDig b then parseNum eof (b :: t) else .bad (b :: t)) := rfl

theorem parseElems_succ (f : Nat) (eof : Bool) (input : List Nat) :
    parseElems (f + 1) eof input =
      (match parseVal f eof input with
       | .ok v r =>
           match skipWsB r with
           | [] => if eof then .badl [] else .morel
           | 44 :: r2 =>
               match parseElems f eof (skipWsB r2) with
               | .okl vs r3 => .okl (v :: vs) r3
               | .badl r3 => .badl r3
               | .morel => .morel
           | 93 :: r2 => .okl [v] r2
           | c :: r2 => .badl (c :: r2)
       | .bad r => .badl r
       | .more => .morel) := rfl

theorem parseMembers_succ (f : Nat) (eof : Bool) (input : List Nat) :
    parseMembers (f + 1) eof input =
      (match skipWsB input with
       | [] => if eof then .badm [] else .morem
       | 34 :: t =>
           match strBody (t.length + 1) eof t [] with
           | .oks k r1 =>
               match skipWsB r1 with
               | [] => if eof then .badm [] else .morem
               | 58 :: r2 =>
                   match parseVal f eof (skipWsB r2) with
                   | .ok v r3 =>
                       match skipWsB r3 with
                       | [] => if eof then .badm [] else .morem
                       | 44 :: r4 =>
                           match parseMembers f eof (skipWsB r4) with
                           | .okm ms r5 => .okm ((k, v) :: ms) r5
                           | .badm r5 => .badm r5
                           | .morem => .morem
                       | 125 :: r4 => .okm [(k, v)] r4
                       | c :: r4 => .badm (c :: r4)
                   | .bad r3 => .badm r3
                   | .more => .morem
               | c :: r2 => .badm (c :: r2)
           | .bads r1 => .badm r1
           | .mores => .morem
       | c :: t => .badm (c :: t)) := rfl

theorem parseVal_null (f : Nat) (rest : List Nat) :
    parseVal (f + 1) false (renderJ .null ++ rest) = .ok .null rest := rfl

theorem parseVal_true (f : Nat) (rest : List Nat) :
    parseVal (f + 1) false (renderJ (.bool true) ++ rest) = .ok (.bool true) rest := rfl

theorem parseVal_false (f : Nat) (rest : List Nat) :
    parseVal (f + 1) false (renderJ (.bool false) ++ rest) = .ok (.bool false) rest := rfl

theorem parseVal_numHead {c : Nat} (hc : c = 45 ∨ (48 ≤ c ∧ c ≤ 57)) (f : Nat) (eof : Bool)
    (t : List Nat) : parseVal (f + 1) eof (c :: t) = parseNum eof (c :: t) := by
  have hws : isWsB c = false := by
    simp only [isWsB, Bool.or_eq_false_iff, decide_eq_false_iff_not]
    omega
  rw [parseVal_succ, skipWsB_not _ hws]
  split
  next heq => exact absurd heq nofun
  next heq => injection heq with h1 _; omega
  next heq => injection heq with h1 _; omega
  next heq => injection heq with h1 _; omega
  next heq => injection heq with h1 _; omega
  next heq => injection heq with h1 _; omega
  next heq => injection heq with h1 _; omega
  next b t2 heq =>
    injection heq with h1 h2
    subst h1
    subst h2
    rw [if_pos]
    simp only [isDig, Bool.or_eq_true, decide_eq_true_eq, Bool.and_eq_true]
    omega

theorem parseVal_num (i : Int) (f : Nat) {b : Nat} {t : List Nat} (h : safeRest (b :: t) = true) :
    parseVal (f + 1) false (renderJ (.num i) ++ (b :: t)) = .ok (.num i) (b :: t) := by
  obtain ⟨c, t0, heq, hc⟩ := intChars_head i
  rw [show renderJ (.num i) = intChars i from rfl, heq, List.cons_append, parseVal_numHead hc,
    ← List.cons_append, ← heq, parseNum_render i h]

theorem escByte_length_pos (b : Nat) : 1 ≤ (escByte b).length := by
  unfold escByte
  split_ifs <;> simp

theorem escList_length (s : List Nat) : s.length ≤ (escList s).length := by
  induction s with
  | nil => simp [escList]
  | cons b t ih =>
      rw [escList_cons, List.length_append, List.length_cons]
      have := escByte_length_pos b
      omega

theorem parseVal_strCase (f : Nat) (eof : Bool) (t : List Nat) :
    parseVal (f + 1) eof (34 :: t) =
      (match strBody (t.length + 1) eof t [] with
       | .oks s r => .ok (.str s) r
       | .bads r => .bad r
       | .mores => .more) := rfl

theorem parseVal_str (s : List Nat) (f : Nat) (eof : Bool) (rest : List Nat) :
    parseVal (f + 1) eof (renderJ (.str s) ++ rest) = .ok (.str s) rest := by
  have harg : renderJ (.str s) ++ rest = 34 :: (escList s ++ (34 :: rest)) := by
    show (34 :: (escList s ++ [34])) ++ rest = _
    simp
  rw [harg, parseVal_strCase]
  rw [strBody_escList eof s ((escList s ++ (34 :: rest)).length + 1)
    (by have := escList_length s; simp only [List.length_append, List.length_cons]; omega) [] rest]
  simp

/-! ## Lemmas: array/object step reductions -/

theorem parseVal_arrCase (f : Nat) (eof : Bool) (t : List Nat) :
    parseVal (f + 1) eof (91 :: t) =
      (match skipWsB t with
       | [] => if eof then .bad [] else .more
       | 93 :: r => .ok (.arr []) r
       | c :: r =>
           match parseElems f eof (c :: r) with
           | .okl vs r2 => .ok (.arr vs) r2
           | .badl r2 => .bad r2
           | .morel => .more) := rfl

theorem parseVal_objCase (f : Nat) (eof : Bool) (t : List Nat) :
    parseVal (f + 1) eof (123 :: t) =
      (match skipWsB t with
       | [] => if eof then .bad [] else .more
       | 125 :: r => .ok (.obj []) r
       | c :: r =>
           match parseMembers f eof (c :: r) with
       | .okm ms r2 => .ok (.obj ms) r2
       | .badm r2 => .bad r2
       | .morem => .more) := rfl

theorem renderElems_one (x : JValue) : renderElems [x] = renderJ x := rfl

theorem renderElems_two (x y : JValue) (t : List JValue) :
    renderElems (x :: y :: t) = renderJ x ++ 44 :: renderElems (y :: t) := rfl

theorem renderMembers_one (k : List Nat) (v : JValue) :
    renderMembers [(k, v)] = renderKey k ++ renderJ v := rfl

theorem renderMembers_two (k : List Nat) (v : JValue) (m : List Nat × JValue)
    (t : List (List Nat × JValue)) :
    renderMembers ((k, v) :: m :: t) = renderKey k ++ renderJ v ++ 44 :: renderMembers (m :: t) :=
  rfl

theorem renderKey_expand (k : List Nat) (X : List Nat) :
    renderKey k ++ X = 34 :: (escList k ++ (34 :: (58 :: X))) := by
  show (34 :: (escList k ++ [34, 58])) ++ X = _
  simp

theorem elems_head (x : JValue) (xs : List JValue) (X : List Nat) :
    ∃ c t', renderElems (x :: xs) ++ X = c :: t' ∧ isWsB c = false ∧ c ≠ 93 := by
  obtain ⟨c, t, heq, hws, h93⟩ := renderJ_head x
  cases xs with
  | nil => exact ⟨c, t ++ X, by rw [renderElems_one, heq, List.cons_append], hws, h93⟩
  | cons y ys =>
      refine ⟨c, t ++ (44 :: renderElems (y :: ys)) ++ X, ?_, hws, h93⟩
      rw [renderElems_two, heq]
      simp

theorem skipWsB_renderElems (x : JValue) (xs : List JValue) (X : List Nat) :
    skipWsB (renderElems (x :: xs) ++ X) = renderElems (x :: xs) ++ X := by
  obtain ⟨c, t', heq, hws, _⟩ := elems_head x xs X
  rw [heq, skipWsB_not _ hws]

theorem parseVal_arrStep (x : JValue) (xs : List JValue) (f : Nat) (rest : List Nat) :
    parseVal (f + 1) false (renderJ (.arr (x :: xs)) ++ rest) =
      (match parseElems f false (renderElems (x :: xs) ++ (93 :: rest)) with
       | .okl vs r2 => .ok (.arr vs) r2
       | .badl r2 => .bad r2
       | .morel => .more) := by
  have harr : renderJ (.arr (x :: xs)) ++ rest = 91 :: (renderElems (x :: xs) ++ (93 :: rest)) := by
    show (91 :: (renderElems (x :: xs) ++ [93])) ++ rest = _
    simp
  rw [harr, parseVal_arrCase, skipWsB_renderElems]
  obtain ⟨c, t', heq, hws, h93⟩ := elems_head x xs (93 :: rest)
  rw [heq]
  split
  next h => exact absurd h nofun
  next h => injection h with h1 _; omega
  next h =>
    injection h with h1 h2
    subst h1
    subst h2
    rw [← heq]

theorem members_head (k : List Nat) (v : JValue) (ms : List (List Nat × JValue)) (X : List Nat) :
    ∃ t', renderMembers ((k, v) :: ms) ++ X = 34 :: t' := by
  cases ms with
  | nil =>
      rw [renderMembers_one, List.append_assoc, renderKey_expand]
      exact ⟨_, rfl⟩
  | cons m t =>
      rw [renderMembers_two, List.append_assoc, List.append_assoc, renderKey_expand]
      exact ⟨_, rfl⟩

theorem parseVal_objStep (k : List Nat) (v : JValue) (ms : List (List Nat × JValue)) (f : Nat)
    (rest : List Nat) :
    parseVal (f + 1) false (renderJ (.obj ((k, v) :: ms)) ++ rest) =
      (match parseMembers f false (renderMembers ((k, v) :: ms) ++ (125 :: rest)) with
       | .okm ms2 r2 => .ok (.obj ms2) r2
       | .badm r2 => .bad r2
       | .morem => .more) := by
  have hobj : renderJ (.obj ((k, v) :: ms)) ++ rest
      = 123 :: (renderMembers ((k, v) :: ms) ++ (125 :: rest)) := by
    show (123 :: (renderMembers ((k, v) :: ms) ++ [125])) ++ rest = _
    simp
  rw [hobj, parseVal_objCase]
  obtain ⟨t', heq⟩ := members_head k v ms (125 :: rest)
  rw [heq, skipWsB_not _ (by decide)]

theorem skipWs44 (X : List Nat) : skipWsB (44 :: X) = 44 :: X := rfl
theorem skipWs58 (X : List Nat) : skipWsB (58 :: X) = 58 :: X := rfl
theorem skipWs93 (X : List Nat) : skipWsB (93 :: X) = 93 :: X := rfl
theorem skipWs125 (X : List Nat) : skipWsB (125 :: X) = 125 :: X := rfl

theorem safeRest44 (X : List Nat) : safeRest (44 :: X) = true := rfl
theorem safeRest93 (X : List Nat) : safeRest (93 :: X) = true := rfl
theorem safeRest125 (X : List Nat) : safeRest (125 :: X) = true := rfl
theorem safeRest10 (X : List Nat) : safeRest (10 :: X) = true := rfl

theorem renderKey_length (k : List Nat) : (renderKey k).length = (escList k).length + 3 := by
  show (34 :: (escList k ++ [34, 58])).length = _
  simp

theorem parseMembers_34 (f : Nat) (eof : Bool) (t : List Nat) :
    parseMembers (f + 1) eof (34 :: t) =
      (match strBody (t.length + 1) eof t [] with
       | .oks k r1 =>
           match skipWsB r1 with
           | [] => if eof then .badm [] else .morem
           | 58 :: r2 =>
               match parseVal f eof (skipWsB r2) with
               | .ok v r3 =>
                   match skipWsB r3 with
                   | [] => if eof then .badm [] else .morem
                   | 44 :: r4 =>
                       match parseMembers f eof (skipWsB r4) with
                       | .okm ms r5 => .okm ((k, v) :: ms) r5
                       | .badm r5 => .badm r5
                       | .morem => .morem
                   | 125 :: r4 => .okm [(k, v)] r4
                   | c :: r4 => .badm (c :: r4)
               | .bad r3 => .badm r3
               | .more => .morem
           | c :: r2 => .badm (c :: r2)
       | .bads r1 => .badm r1
       | .mores => .morem) := rfl

/-! ## The decode side of the codec round-trip -/

mutual
theorem rtVal : ∀ (v : JValue) (f : Nat) (rest : List Nat),
    (renderJ v).length < f → safeRest rest = true →
    parseVal f false (renderJ v ++ rest) = .ok v rest
  | .null, f, rest, hf, _ => by
      match f, hf with
      | f + 1, _ => exact parseVal_null f rest
  | .bool true, f, rest, hf, _ => by
      match f, hf with
      | f + 1, _ => exact parseVal_true f rest
  | .bool false, f, rest, hf, _ => by
      match f, hf with
      | f + 1, _ => exact parseVal_false f rest
  | .num i, f, rest, hf, hr => by
      match f, hf with
      | f + 1, _ =>
        match rest, hr with
        | b :: t, hr => exact parseVal_num i f hr
  | .str s, f, rest, hf, _ => by
      match f, hf with
      | f + 1, _ => exact parseVal_str s f false rest
  | .arr [], f, rest, hf, _ => by
      match f, hf with
      | f + 1, _ => rfl
  | .arr (x :: xs), f, rest, hf, _ => by
      match f, hf with
      | f + 1, hf =>
        have hlen : (renderJ (.arr (x :: xs))).length = (renderElems (x :: xs)).length + 2 := by
          show (91 :: (renderElems (x :: xs) ++ [93])).length = _
          simp
        rw [parseVal_arrStep, rtElems x xs f rest (by omega)]
  | .obj [], f, rest, hf, _ => by
      match f, hf with
      | f + 1, _ => rfl
  | .obj ((k, v) :: ms), f, rest, hf, _ => by
      match f, hf with
      | f + 1, hf =>
        have hlen : (renderJ (.obj ((k, v) :: ms))).length
            = (renderMembers ((k, v) :: ms)).length + 2 := by
          show (123 :: (renderMembers ((k, v) :: ms) ++ [125])).length = _
          simp
        rw [parseVal_objStep, rtMembers k v ms f rest (by omega)]
termination_by v _ _ _ _ => sizeOf v

theorem rtElems : ∀ (x : JValue) (xs : List JValue) (f : Nat) (rest : List Nat),
    (renderElems (x :: xs)).length + 1 < f →
    parseElems f false (renderElems (x :: xs) ++ (93 :: rest)) = .okl (x :: xs) rest
  | x, [], f, rest, hf => by
      match f, hf with
      | f + 1, hf =>
        have hlen : (renderElems [x]).length = (renderJ x).length := by rw [renderElems_one]
        have hv := rtVal x f (93 :: rest) (by omega) (safeRest93 rest)
        have harg : renderElems [x] ++ (93 :: rest) = renderJ x ++ (93 :: rest) := by
          rw [renderElems_one]
        rw [harg, parseElems_succ, hv]
        simp [skipWs93]
  | x, y :: t, f, rest, hf => by
      match f, hf with
      | f + 1, hf =>
        have hlen : (renderElems (x :: y :: t)).length
            = (renderJ x).length + 1 + (renderElems (y :: t)).length := by
          rw [renderElems_two]
          simp
          omega
        have hv := rtVal x f (44 :: (renderElems (y :: t) ++ (93 :: rest))) (by omega)
          (safeRest44 _)
        have key := rtElems y t f rest (by omega)
        have harg : renderElems (x :: y :: t) ++ (93 :: rest)
            = renderJ x ++ (44 :: (renderElems (y :: t) ++ (93 :: rest))) := by
          rw [renderElems_two]
          simp
        rw [harg, parseElems_succ, hv]
        simp [skipWs44, skipWsB_renderElems, key]
termination_by x xs _ _ _ => sizeOf x + sizeOf xs

theorem rtMembers : ∀ (k : List Nat) (v : JValue) (ms : List (List Nat × JValue)) (f : Nat)
    (rest : List Nat),
    (renderMembers ((k, v) :: ms)).length + 1 < f →
    parseMembers f false (renderMembers ((k, v) :: ms) ++ (125 :: rest))
      = .okm ((k, v) :: ms) rest
  | k, v, [], f, rest, hf => by
      match f, hf with
      | f + 1, hf =>
        have hlen : (renderMembers [(k, v)]).length
            = (escList k).length + 3 + (renderJ v).length := by
          rw [renderMembers_one]
          simp [renderKey_length]
        have hv := rtVal v f (125 :: rest) (by omega) (safeRest125 rest)
        have harg : renderMembers [(k, v)] ++ (125 :: rest)
            = 34 :: (escList k ++ (34 :: (58 :: (renderJ v ++ (125 :: rest))))) := by
          rw [renderMembers_one, List.append_assoc, renderKey_expand]
        rw [harg, parseMembers_34]
        have hstr := strBody_escList false k
          ((escList k ++ (34 :: (58 :: (renderJ v ++ (125 :: rest))))).length + 1)
          (by have := escList_length k; simp only [List.length_append, List.length_cons]; omega)
          [] (58 :: (renderJ v ++ (125 :: rest)))
        simp only [List.nil_append] at hstr
        rw [hstr]
        simp [skipWs58, skipWsB_renderJ, hv, skipWs125]
  | k, v, (k2, v2) :: ms, f, rest, hf => by
      match f, hf with
      | f + 1, hf =>
        have hlen : (renderMembers ((k, v) :: (k2, v2) :: ms)).length
            = (escList k).length + 4 + (renderJ v).length
              + (renderMembers ((k2, v2) :: ms)).length := by
          rw [renderMembers_two]
          simp [renderKey_length]
          omega
        have hv := rtVal v f (44 :: (renderMembers ((k2, v2) :: ms) ++ (125 :: rest)))
          (by omega) (safeRest44 _)
        have key := rtMembers k2 v2 ms f rest (by omega)
        have harg : renderMembers ((k, v) :: (k2, v2) :: ms) ++ (125 :: rest)
            = 34 :: (escList k ++ (34 :: (58 :: (renderJ v
                ++ (44 :: (renderMembers ((k2, v2) :: ms) ++ (125 :: rest))))))) := by
          rw [renderMembers_two, List.append_assoc, List.append_assoc, renderKey_expand]
          simp
        rw [harg, parseMembers_34]
        have hstr := strBody_escList false k
          ((escList k ++ (34 :: (58 :: (renderJ v
              ++ (44 :: (renderMembers ((k2, v2) :: ms) ++ (125 :: rest))))))).length + 1)
          (by have := escList_length k; simp only [List.length_append, List.length_cons]; omega)
          [] (58 :: (renderJ v ++ (44 :: (renderMembers ((k2, v2) :: ms) ++ (125 :: rest)))))
        simp only [List.nil_append] at hstr
        rw [hstr]
        have hms : skipWsB (renderMembers ((k2, v2) :: ms) ++ (125 :: rest))
            = renderMembers ((k2, v2) :: ms) ++ (125 :: rest) := by
          obtain ⟨t', heq⟩ := members_head k2 v2 ms (125 :: rest)
          rw [heq, skipWsB_not _ (by decide)]
        simp [skipWs58, skipWsB_renderJ, hv, skipWs44, hms, key]
termination_by _ v ms _ _ _ => sizeOf v + sizeOf ms
end

/-! ## Decode and drain phases on an encoded payload -/

theorem tryParse_enc (v : JValue) : tryParse false (jsonEnc v) = .ok v [10] := by
  show parseVal (2 * (jsonEnc v).length + 4) false (renderJ v ++ [10]) = .ok v [10]
  exact rtVal v _ [10]
    (by simp only [jsonEnc, List.length_append, List.length_cons, List.length_nil]; omega)
    (safeRest10 [])

theorem decodePhase_enc (v : JValue) (t : GzTerm) (L : Nat) (h : (jsonEnc v).length ≤ L) :
    ∃ c, decodePhase (jsonEnc v) t L = (some v, c) ∧ c ≤ (jsonEnc v).length := by
  have hA : min L (jsonEnc v).length = (jsonEnc v).length := min_eq_right h
  refine ⟨min (chunkCeil (min L (jsonEnc v).length - 1 - 1)) (min L (jsonEnc v).length), ?_, ?_⟩
  · simp only [decodePhase, hA, List.take_length, tryParse_enc]
    norm_num
  · rw [hA]
    exact min_le_right _ _

theorem afterGz_enc_ok (v init : JValue) (m : Int) (h : (jsonEnc v).length ≤ m.toNat) :
    afterGz (jsonEnc v) .ok init m = (v, none) := by
  obtain ⟨c, hd, hc⟩ := decodePhase_enc v .ok m.toNat h
  have hdr : (drainPhase ((jsonEnc v).drop c) GzTerm.ok (m.toNat - c)).1 = none := by
    unfold drainPhase
    split
    · rfl
    · rfl
  rcases hdp : drainPhase ((jsonEnc v).drop c) GzTerm.ok (m.toNat - c) with ⟨o, N2⟩
  have ho : o = none := by rw [← hdr, hdp]
  subst ho
  simp [afterGz, hd, hdp]

theorem afterGz_enc_err (v init : JValue) (t : GzTerm) (m : Int)
    (hlt : (jsonEnc v).length < m.toNat) (ht : t ≠ .ok) :
    afterGz (jsonEnc v) t init m
      = (v, some ⟨.internalServerError, "failed to verify complete gzip stream"⟩) := by
  obtain ⟨c, hd, hc⟩ := decodePhase_enc v t m.toNat (le_of_lt hlt)
  have hdp : drainPhase ((jsonEnc v).drop c) t (m.toNat - c)
      = (some t, m.toNat - c - ((jsonEnc v).drop c).length) := by
    unfold drainPhase
    rw [if_neg (by simp only [List.length_drop]; omega)]
    cases t with
    | ok => exact absurd rfl ht
    | truncated => rfl
    | checksum => rfl
    | corrupt => rfl
  have hne : ¬ m.toNat - c - ((jsonEnc v).length - c) = 0 := by omega
  simp [afterGz, hd, hdp, hne]

/-! ## Lemmas: the gzip container round-trip -/

theorem crc32Round_lt {c : Nat} (h : c < 4294967296) : crc32Round c < 4294967296 := by
  unfold crc32Round
  split
  · have h1 : c / 2 < 2 ^ 32 := by omega
    have h2 : (3988292384 : Nat) < 2 ^ 32 := by norm_num
    have := Nat.xor_lt_two_pow h1 h2
    omega
  · omega

theorem crc32Byte_lt {c : Nat} (b : Nat) (h : c < 4294967296) : crc32Byte c b < 4294967296 := by
  unfold crc32Byte
  have h0 : c ^^^ b % 256 < 4294967296 := by
    have h1 : c < 2 ^ 32 := by omega
    have h2 : b % 256 < 2 ^ 32 := by have := Nat.mod_lt b (show 0 < 256 by omega); omega
    have := Nat.xor_lt_two_pow h1 h2
    omega
  exact crc32Round_lt (crc32Round_lt (crc32Round_lt (crc32Round_lt (crc32Round_lt
    (crc32Round_lt (crc32Round_lt (crc32Round_lt h0)))))))

theorem crc32_lt (bs : List Nat) : crc32 bs < 4294967296 := by
  unfold crc32
  have hfold : ∀ (l : List Nat) (c : Nat), c < 4294967296 → l.foldl crc32Byte c < 4294967296 := by
    intro l
    induction l with
    | nil => intro c hc; simpa using hc
    | cons b t ih =>
        intro c hc
        rw [List.foldl_cons]
        exact ih _ (crc32Byte_lt b hc)
  have h1 := hfold bs 4294967295 (by norm_num)
  have h2 : (4294967295 : Nat) < 2 ^ 32 := by norm_num
  have := Nat.xor_lt_two_pow (show bs.foldl crc32Byte 4294967295 < 2 ^ 32 by omega) h2
  omega

theorem rd32_le32 {x : Nat} (h : x < 4294967296) :
    rd32 (x % 256) (x / 256 % 256) (x / 65536 % 256) (x / 16777216 % 256) = x := by
  unfold rd32
  omega

theorem footStepG_cons (rec2 : List Nat → List Nat → List Nat × GzTerm) (p : List Nat)
    (c0 c1 c2 c3 s0 s1 s2 s3 : Nat) (rest2 : List Nat) :
    footStepG rec2 p (c0 :: c1 :: c2 :: c3 :: s0 :: s1 :: s2 :: s3 :: rest2) =
      (if rd32 c0 c1 c2 c3 = crc32 p ∧ rd32 s0 s1 s2 s3 = p.length % 4294967296 then
        match rest2 with
        | [] => (p, .ok)
        | _ :: _ =>
            if 10 ≤ rest2.length then
              if rest2.take 4 = [31, 139, 8, 0] then rec2 (rest2.drop 10) p
              else (p, .corrupt)
            else (p, .truncated)
      else (p, .checksum)) := rfl

theorem footStepG_full (rec2 : List Nat → List Nat → List Nat × GzTerm) (p : List Nat) :
    footStepG rec2 p (le32 (crc32 p) ++ le32 (p.length % 4294967296)) = (p, .ok) := by
  show footStepG rec2 p (crc32 p % 256 :: crc32 p / 256 % 256 :: crc32 p / 65536 % 256 ::
    crc32 p / 16777216 % 256 :: p.length % 4294967296 % 256 :: p.length % 4294967296 / 256 % 256 ::
    p.length % 4294967296 / 65536 % 256 :: p.length % 4294967296 / 16777216 % 256 :: []) = _
  rw [footStepG_cons,
    if_pos (And.intro (rd32_le32 (crc32_lt p)) (rd32_le32 (Nat.mod_lt _ (by omega))))]

theorem footStepG_short (rec2 : List Nat → List Nat → List Nat × GzTerm) (p tail : List Nat)
    (h : tail.length < 8) : footStepG rec2 p tail = (p, .truncated) := by
  match tail, h with
  | [], _ => rfl
  | [a], _ => rfl
  | [a, b], _ => rfl
  | [a, b, c], _ => rfl
  | [a, b, c, d], _ => rfl
  | [a, b, c, d, e], _ => rfl
  | [a, b, c, d, e, g], _ => rfl
  | [a, b, c, d, e, g, i], _ => rfl
  | a :: b :: c :: d :: e :: g :: i :: j :: t, h => exact absurd h (by simp)

theorem deflateA_fuel : ∀ (bound f g : Nat) (p : List Nat), p.length ≤ bound →
    p.length < f → p.length < g → deflateA f p = deflateA g p := by
  intro bound
  induction bound with
  | zero =>
      intro f g p hb hf hg
      match f, hf, g, hg with
      | f + 1, _, g + 1, _ =>
        have : p.length = 0 := by omega
        simp only [deflateA, if_pos (by omega : p.length ≤ 65535)]
  | succ bound ih =>
      intro f g p hb hf hg
      match f, hf, g, hg with
      | f + 1, hf, g + 1, hg =>
        by_cases h : p.length ≤ 65535
        · simp only [deflateA, if_pos h]
        · simp only [deflateA, if_neg h]
          rw [ih f g (p.drop 65535) (by simp only [List.length_drop]; omega)
            (by simp only [List.length_drop]; omega) (by simp only [List.length_drop]; omega)]

theorem deflateA_succ (f : Nat) (p : List Nat) :
    deflateA (f + 1) p =
      if p.length ≤ 65535 then 1 :: (le16 p.length ++ (le16 (65535 - p.length) ++ p))
      else 0 :: (le16 65535 ++ (le16 0 ++ (p.take 65535 ++ deflateA f (p.drop 65535)))) := rfl

theorem deflateStored_unfold (p : List Nat) :
    deflateStored p =
      if p.length ≤ 65535 then 1 :: (le16 p.length ++ (le16 (65535 - p.length) ++ p))
      else 0 :: (le16 65535 ++ (le16 0 ++ (p.take 65535 ++ deflateStored (p.drop 65535)))) := by
  rw [show deflateStored p = deflateA (p.length + 1) p from rfl, deflateA_succ]
  by_cases h : p.length ≤ 65535
  · rw [if_pos h, if_pos h]
  · rw [if_neg h, if_neg h]
    rw [deflateA_fuel (p.drop 65535).length p.length ((p.drop 65535).length + 1) (p.drop 65535)
      (by omega) (by simp only [List.length_drop]; omega) (by omega)]
    rfl

theorem deflateStored_length_all : ∀ (bound : Nat) (p : List Nat), p.length ≤ bound →
    p.length ≤ (deflateStored p).length := by
  intro bound
  induction bound with
  | zero =>
      intro p hb
      omega
  | succ bound ih =>
      intro p hb
      rw [deflateStored_unfold]
      by_cases h : p.length ≤ 65535
      · rw [if_pos h]
        simp only [List.length_cons, List.length_append, le16]
        omega
      · rw [if_neg h]
        have hrec := ih (p.drop 65535) (by simp only [List.length_drop]; omega)
        simp only [List.length_cons, List.length_append, le16, List.length_take,
          List.length_drop] at hrec ⊢
        omega

theorem deflateStored_length (p : List Nat) : p.length ≤ (deflateStored p).length :=
  deflateStored_length_all p.length p le_rfl

theorem inflateA_block (f : Nat) (flag l0 l1 n0 n1 : Nat) (r2 acc : List Nat) :
    inflateA (f + 1) (flag :: l0 :: l1 :: n0 :: n1 :: r2) acc =
      (if flag = 0 ∨ flag = 1 then
        if l0 + 256 * l1 + (n0 + 256 * n1) = 65535 then
          if l0 + 256 * l1 ≤ r2.length then
            if flag = 1 then
              footStepG (fun b a => inflateA f b a) (acc ++ r2.take (l0 + 256 * l1))
                (r2.drop (l0 + 256 * l1))
            else inflateA f (r2.drop (l0 + 256 * l1)) (acc ++ r2.take (l0 + 256 * l1))
          else (acc ++ r2, .truncated)
        else (acc, .corrupt)
      else (acc, .corrupt)) := rfl

theorem inflate_blocks : ∀ (bound : Nat) (p : List Nat), p.length ≤ bound →
    ∀ (f : Nat) (acc tail : List Nat), p.length + 1 ≤ f →
    ∃ g, inflateA f (deflateStored p ++ tail) acc
      = footStepG (fun b a => inflateA g b a) (acc ++ p) tail := by
  have final : ∀ (f : Nat) (p acc tail : List Nat), p.length ≤ 65535 →
      inflateA (f + 1) (deflateStored p ++ tail) acc
        = footStepG (fun b a => inflateA f b a) (acc ++ p) tail := by
    intro f p acc tail h
    rw [deflateStored_unfold, if_pos h]
    show inflateA (f + 1)
      (1 :: ((p.length % 256) :: ((p.length / 256 % 256) ::
        (((65535 - p.length) % 256) :: (((65535 - p.length) / 256 % 256) :: (p ++ tail))))))
      acc = _
    rw [inflateA_block]
    have he : p.length % 256 + 256 * (p.length / 256 % 256) = p.length := by omega
    rw [if_pos (show (1 : Nat) = 0 ∨ (1 : Nat) = 1 by omega), he,
      if_pos (by omega), if_pos (by rw [List.length_append]; omega), if_pos rfl,
      List.take_left' rfl, List.drop_left' rfl]
  intro bound
  induction bound with
  | zero =>
      intro p hb f acc tail hf
      match f, hf with
      | f + 1, _ => exact ⟨f, final f p acc tail (by omega)⟩
  | succ bound ih =>
      intro p hb f acc tail hf
      match f, hf with
      | f + 1, hf =>
        by_cases h : p.length ≤ 65535
        · exact ⟨f, final f p acc tail h⟩
        · obtain ⟨g, hg⟩ := ih (p.drop 65535) (by simp only [List.length_drop]; omega) f
            (acc ++ p.take 65535) tail (by simp only [List.length_drop]; omega)
          refine ⟨g, ?_⟩
          rw [deflateStored_unfold, if_neg h]
          show inflateA (f + 1)
            (0 :: (255 :: (255 :: (0 :: (0 ::
              ((p.take 65535 ++ deflateStored (p.drop 65535)) ++ tail)))))) acc = _
          rw [inflateA_block]
          have htk : (p.take 65535).length = 65535 := by
            simp only [List.length_take]
            omega
          rw [if_pos (show (0 : Nat) = 0 ∨ (0 : Nat) = 1 by omega),
            if_pos (by omega), if_pos (by
              simp only [List.length_append, List.length_take]
              omega), if_neg (by omega)]
          rw [show ((255 : Nat) + 256 * 255) = 65535 from by norm_num]
          rw [List.append_assoc, List.take_left' htk, List.drop_left' htk]
          rw [hg, List.append_assoc, List.take_append_drop]

/-! ## gzip blobs produced by the writer, and their decode -/

theorem gzHeaderParse_pref (X : List Nat) : gzHeaderParse (gzHeaderBytes ++ X) = some X := rfl

theorem gzipCompress_assoc (p : List Nat) :
    gzipCompress p = gzHeaderBytes
      ++ (deflateStored p ++ (le32 (crc32 p) ++ le32 (p.length % 4294967296))) := by
  simp [gzipCompress, List.append_assoc]

theorem gzBody_compress (p : List Nat) : gzBody (gzipCompress p) = some (p, .ok) := by
  rw [gzipCompress_assoc]
  show (gzHeaderParse (gzHeaderBytes ++ _)).map inflate = _
  rw [gzHeaderParse_pref, Option.map_some']
  obtain ⟨g, hg⟩ := inflate_blocks p.length p le_rfl
    ((deflateStored p ++ (le32 (crc32 p) ++ le32 (p.length % 4294967296))).length + 1) []
    (le32 (crc32 p) ++ le32 (p.length % 4294967296))
    (by have := deflateStored_length p; simp only [List.length_append]; omega)
  show some (inflateA _ _ []) = _
  rw [hg, List.nil_append, footStepG_full]

theorem gzipCompress_length (p : List Nat) :
    (gzipCompress p).length = (deflateStored p).length + 18 := by
  simp only [gzipCompress, List.length_append, gzHeaderBytes, le32, List.length_cons,
    List.length_nil]
  omega

theorem gzipCompress_take4 (p : List Nat) :
    (gzipCompress p).take ((gzipCompress p).length - 4)
      = gzHeaderBytes ++ (deflateStored p ++ le32 (crc32 p)) := by
  have hlen : (gzHeaderBytes ++ deflateStored p ++ le32 (crc32 p)).length
      = (gzipCompress p).length - 4 := by
    rw [gzipCompress_length]
    simp only [List.length_append, gzHeaderBytes, le32, List.length_cons, List.length_nil]
    omega
  have := @List.take_left' _ (gzHeaderBytes ++ deflateStored p ++ le32 (crc32 p))
      (le32 (p.length % 4294967296)) ((gzipCompress p).length - 4) hlen
  rw [show gzHeaderBytes ++ deflateStored p ++ le32 (crc32 p)
        ++ le32 (p.length % 4294967296) = gzipCompress p from by
      simp [gzipCompress, List.append_assoc]] at this
  rw [this]
  simp [List.append_assoc]

theorem gzBody_trunc (p : List Nat) :
    gzBody ((gzipCompress p).take ((gzipCompress p).length - 4)) = some (p, .truncated) := by
  rw [gzipCompress_take4]
  show (gzHeaderParse (gzHeaderBytes ++ _)).map inflate = _
  rw [gzHeaderParse_pref, Option.map_some']
  obtain ⟨g, hg⟩ := inflate_blocks p.length p le_rfl
    ((deflateStored p ++ le32 (crc32 p)).length + 1) [] (le32 (crc32 p))
    (by have := deflateStored_length p; simp only [List.length_append]; omega)
  show some (inflateA _ _ []) = _
  rw [hg, List.nil_append, footStepG_short _ _ _ (by simp [le32])]

theorem gzipCompress_len_ne (p : List Nat) : ¬ (gzipCompress p).length = 0 := by
  rw [gzipCompress_length]
  omega

theorem trunc_len_ne (p : List Nat) :
    ¬ ((gzipCompress p).take ((gzipCompress p).length - 4)).length = 0 := by
  rw [gzipCompress_take4]
  simp only [List.length_append, gzHeaderBytes, List.length_cons, List.length_nil]
  omega

/-! ## Decompress on writer-produced blobs -/

theorem Decompress_gzip (p : List Nat) (init : JValue) (L : Int) :
    Decompress (gzipCompress p) false init L
      = afterGz p .ok init (if L ≤ 0 then defaultMaxDecompressedSize else L) := by
  unfold Decompress
  rw [if_neg (gzipCompress_len_ne p), if_neg (by simp), gzBody_compress]

theorem Decompress_gzip_trunc (p : List Nat) (init : JValue) (L : Int) :
    Decompress ((gzipCompress p).take ((gzipCompress p).length - 4)) false init L
      = afterGz p .truncated init (if L ≤ 0 then defaultMaxDecompressedSize else L) := by
  unfold Decompress
  rw [if_neg (trunc_len_ne p), if_neg (by simp), gzBody_trunc]

/-! ## Round-trip and truncation helpers -/

theorem jsonEnc_len_pos (v : JValue) : 1 ≤ (jsonEnc v).length := by
  simp [jsonEnc]

theorem roundtrip_aux (v init : JValue) (L : Int) (h : ((jsonEnc v).length : Int) ≤ L) :
    Decompress (gzipCompress (jsonEnc v)) false init L = (v, none) := by
  have h1 := jsonEnc_len_pos v
  have hpos : ¬ L ≤ 0 := by omega
  rw [Decompress_gzip, if_neg hpos]
  exact afterGz_enc_ok v init L (by omega)

theorem trunc_aux (v init : JValue) (L : Int) (h : ((jsonEnc v).length : Int) < L) :
    Decompress ((gzipCompress (jsonEnc v)).take ((gzipCompress (jsonEnc v)).length - 4))
        false init L
      = (v, some ⟨.internalServerError, "failed to verify complete gzip stream"⟩) := by
  have h1 := jsonEnc_len_pos v
  have hpos : ¬ L ≤ 0 := by omega
  rw [Decompress_gzip_trunc, if_neg hpos]
  exact afterGz_enc_err v init .truncated L (by omega) nofun

/-! ## Claims -/

/-- C1: for every value `v` encodable in the structured text format (every
`JValue`), compressing `v` and decompressing the resulting blob with a
sufficiently large limit `L` (at least the encoded size) into a destination
succeeds and leaves the destination equal to `v`. -/
theorem c1_round_trip (v init : JValue) (L : Int) (h : ((jsonEnc v).length : Int) ≤ L) :
    Decompress (Compress (.val v)).1 false init L = (v, none) :=
  roundtrip_aux v init L h

theorem c1_round_trip_witness :
    ((jsonEnc (JValue.num 7)).length : Int) ≤ 30
    ∧ Decompress (Compress (.val (.num 7))).1 false .null 30 = (.num 7, none) :=
  ⟨by decide, c1_round_trip (.num 7) .null 30 (by decide)⟩

/-- C2: the code does NOT fail when a blob decodes to a complete value followed
by more bytes than the remaining limit allows — the drain's `io.Copy` treats
the limited reader's budget exhaustion as a clean end of stream, so
`Decompress` returns success (with the checksum never verified), contradicting
the claim that the size-limit error must be reported.  Failing input: a gzip
blob of `7\n` followed by 100 junk bytes, limit 10. -/
theorem c2_drain_limit_bypass :
    Decompress (gzipCompress (jsonEnc (.num 7) ++ List.replicate 100 120)) false .null 10
      = (.num 7, none) := by
  rw [Decompress_gzip, if_neg (by norm_num)]
  rfl

/-- C3 counterexample: on a concrete truncated blob the code errors (with the
destination holding the already-decoded value `7`, which `Decode` wrote before
the drain failed), and the error message is
`failed to verify complete gzip stream`, which does not contain the claim's
quoted string `failed to verify complete stream`. -/
theorem c3_truncation_counterexample :
    Decompress ((Compress (.val (.num 7))).1.take ((Compress (.val (.num 7))).1.length - 4))
        false .null 100
      = (.num 7, some ⟨.internalServerError, "failed to verify complete gzip stream"⟩)
    ∧ strHasSub "failed to verify complete stream" "failed to verify complete gzip stream"
        = false :=
  ⟨trunc_aux (.num 7) .null 100 (by decide), by decide⟩

/-- C3 (amended): truncating the last 4 bytes of any blob produced by
`Compress` and decompressing with a sufficient limit yields an error whose
message contains `failed to verify complete gzip stream` (never a success);
the destination holds the value the decode phase wrote before the drain
failed. -/
theorem c3_truncation_amended (v init : JValue) (L : Int)
    (h : ((jsonEnc v).length : Int) < L) :
    Decompress ((Compress (.val v)).1.take ((Compress (.val v)).1.length - 4)) false init L
      = (v, some ⟨.internalServerError, "failed to verify complete gzip stream"⟩)
    ∧ strHasSub "failed to verify complete gzip stream" "failed to verify complete gzip stream"
        = true :=
  ⟨trunc_aux v init L h, by decide⟩

theorem c3_truncation_witness :
    ((jsonEnc (JValue.num 7)).length : Int) < 100
    ∧ (Decompress ((Compress (.val (.num 7))).1.take ((Compress (.val (.num 7))).1.length - 4))
          false .null 100
        = (.num 7, some ⟨.internalServerError, "failed to verify complete gzip stream"⟩)
      ∧ strHasSub "failed to verify complete gzip stream" "failed to verify complete gzip stream"
          = true) :=
  ⟨by decide, c3_truncation_amended (.num 7) .null 100 (by decide)⟩

/-- C4: compressing the 100-character string of repeated `a` and decompressing
with limit 10 yields exactly the `InvalidParams` error whose message is
`decompressed size exceeds limit: 10 bytes`; with any limit of at least 103
(100 bytes plus quotes and newline) it succeeds with the string restored. -/
theorem c4_size_cap :
    Decompress (Compress (.val (.str (List.replicate 100 97)))).1 false .null 10
      = (.null, some ⟨.invalidParams, "decompressed size exceeds limit: 10 bytes"⟩)
    ∧ ∀ (L : Int) (init : JValue), 103 ≤ L →
        Decompress (Compress (.val (.str (List.replicate 100 97)))).1 false init L
          = (.str (List.replicate 100 97), none) := by
  constructor
  · show Decompress (gzipCompress (jsonEnc (.str (List.replicate 100 97)))) false .null 10 = _
    rw [Decompress_gzip, if_neg (by norm_num)]
    rfl
  · intro L init hL
    have hlen : ((jsonEnc (JValue.str (List.replicate 100 97))).length : Int) = 103 := by decide
    exact roundtrip_aux _ init L (by omega)

theorem c4_size_cap_witness :
    (103 : Int) ≤ 200
    ∧ Decompress (Compress (.val (.str (List.replicate 100 97)))).1 false .null 200
        = (.str (List.replicate 100 97), none) :=
  ⟨by decide, c4_size_cap.2 200 .null (by decide)⟩

/-- C5: a limit of 0 behaves identically to a limit of `4*1024*1024`, and any
limit `≤ 0` is replaced by the process-wide default of 4 MiB — zero or
negative never means unlimited. -/
theorem c5_default_limit (blob : List Nat) (outNil : Bool) (init : JValue) :
    Decompress blob outNil init 0 = Decompress blob outNil init (4 * 1024 * 1024)
    ∧ ∀ L : Int, L ≤ 0 →
        Decompress blob outNil init L = Decompress blob outNil init defaultMaxDecompressedSize := by
  have key : ∀ L : Int, L ≤ 0 →
      Decompress blob outNil init L = Decompress blob outNil init defaultMaxDecompressedSize := by
    intro L hL
    unfold Decompress
    rw [if_pos hL, ite_self]
  refine ⟨?_, key⟩
  have h0 := key 0 le_rfl
  rw [h0]
  rfl

theorem c5_default_limit_witness :
    (-3 : Int) ≤ 0
    ∧ Decompress [1, 2, 3] false .null (-3)
        = Decompress [1, 2, 3] false .null defaultMaxDecompressedSize :=
  ⟨by decide, (c5_default_limit [1, 2, 3] false .null).2 (-3) (by decide)⟩

/-- C6: `Compress(nil)` is rejected with `InvalidParams` and message
`data cannot be nil`; an empty blob and a nil destination pointer are rejected
by `Decompress` with `InvalidParams` and their matching messages, before any
decompression work happens (the result carries no decoded data). -/
theorem c6_null_rejection :
    Compress .nilInterface = ([], some ⟨.invalidParams, "data cannot be nil"⟩)
    ∧ (∀ (outNil : Bool) (init : JValue) (L : Int),
        Decompress [] outNil init L
          = (init, some ⟨.invalidParams, "compressedData cannot be empty"⟩))
    ∧ (∀ (b : Nat) (bs : List Nat) (init : JValue) (L : Int),
        Decompress (b :: bs) true init L
          = (init, some ⟨.invalidParams, "output pointer cannot be nil"⟩)) := by
  refine ⟨rfl, fun _ _ _ => rfl, fun b bs init L => ?_⟩
  unfold Decompress
  rw [if_neg (by simp), if_pos rfl]

/-! ## Error-path helpers for the remaining claims -/

theorem compress_err_nil (g : GoValue) (h : (Compress g).2 ≠ none) : (Compress g).1 = [] := by
  cases g with
  | nilInterface => rfl
  | nilPointer t => exact absurd rfl h
  | val v => exact absurd rfl h
  | unsupported t => rfl

theorem afterGz_decode_none (P : List Nat) (t : GzTerm) (init : JValue) (m : Int) (c : Nat)
    (hd : decodePhase P t m.toNat = (none, c)) :
    afterGz P t init m
      = if m.toNat - c = 0 then (init, some ⟨.invalidParams, limitMsg m⟩)
        else (init, some ⟨.internalServerError, "failed to decode JSON"⟩) := by
  unfold afterGz
  rw [hd]

theorem afterGz_drain_some (P : List Nat) (t : GzTerm) (init : JValue) (m : Int)
    (v : JValue) (c : Nat) (e : GzTerm) (cd : Nat)
    (hd : decodePhase P t m.toNat = (some v, c))
    (hdr : drainPhase (P.drop c) t (m.toNat - c) = (some e, cd)) :
    afterGz P t init m
      = if cd = 0 then (v, some ⟨.invalidParams, limitMsg m⟩)
        else (v, some ⟨.internalServerError, "failed to verify complete gzip stream"⟩) := by
  simp only [afterGz, hd, hdr]

theorem afterGz_dest (P : List Nat) (t : GzTerm) (init : JValue) (m : Int) :
    (afterGz P t init m).1 = init
    ∨ (decodePhase P t m.toNat).1 = some ((afterGz P t init m).1) := by
  rcases hd : decodePhase P t m.toNat with ⟨o, c⟩
  cases o with
  | none =>
      rw [afterGz_decode_none P t init m c hd]
      split
      · exact Or.inl rfl
      · exact Or.inl rfl
  | some v =>
      right
      rcases hdr : drainPhase (P.drop c) t (m.toNat - c) with ⟨od, cd⟩
      cases od with
      | none =>
          have h1 : afterGz P t init m = (v, none) := by
            simp only [afterGz, hd, hdr]
          rw [h1]
      | some e =>
          rw [afterGz_drain_some P t init m v c e cd hd hdr]
          split
          · rfl
          · rfl

theorem decompress_dest (blob : List Nat) (outNil : Bool) (init : JValue) (L : Int) :
    (Decompress blob outNil init L).1 = init
    ∨ ∃ P t, gzBody blob = some (P, t)
        ∧ (decodePhase P t (if L ≤ 0 then defaultMaxDecompressedSize else L).toNat).1
            = some ((Decompress blob outNil init L).1) := by
  by_cases h1 : blob.length = 0
  · left
    simp [Decompress, h1]
  · by_cases h2 : outNil = true
    · left
      simp [Decompress, h1, h2]
    · rcases hg : gzBody blob with _ | ⟨P, t⟩
      · left
        simp [Decompress, h1, h2, hg]
      · have hD : Decompress blob outNil init L
            = afterGz P t init (if L ≤ 0 then defaultMaxDecompressedSize else L) := by
          simp [Decompress, h1, h2, hg]
        rw [hD]
        rcases afterGz_dest P t init (if L ≤ 0 then defaultMaxDecompressedSize else L)
          with h | h
        · exact Or.inl h
        · exact Or.inr ⟨P, t, rfl, h⟩

/-- C7 counterexample: `Decompress` on a truncated blob at a sufficient limit
returns the drain error, yet the destination (initially `null`) holds the
fully decoded value `7` — a successful-looking result alongside an error,
refuting the claim that the destination is never populated on failure. -/
theorem c7_partial_counterexample :
    (Decompress ((Compress (.val (.num 7))).1.take ((Compress (.val (.num 7))).1.length - 4))
        false .null 60).2
      = some ⟨.internalServerError, "failed to verify complete gzip stream"⟩
    ∧ (Decompress ((Compress (.val (.num 7))).1.take ((Compress (.val (.num 7))).1.length - 4))
        false .null 60).1
      = .num 7
    ∧ JValue.num 7 ≠ JValue.null := by
  have h := trunc_aux (.num 7) .null 60 (by decide)
  exact ⟨congrArg Prod.snd h, congrArg Prod.fst h, nofun⟩

/-- C7 (amended): `Compress` returns no bytes on any failure; on a
`Decompress` failure the destination either still holds its prior contents
(every failure before a successful decode) or holds exactly the value the
decode phase wrote into it before the drain failed — `json.Decode` populates
`*out` in place, so a post-decode drain error leaves the decoded value in the
destination alongside the error. -/
theorem c7_no_partial_amended :
    (∀ g : GoValue, (Compress g).2 ≠ none → (Compress g).1 = [])
    ∧ ∀ (blob : List Nat) (outNil : Bool) (init : JValue) (L : Int) (e : Err),
        (Decompress blob outNil init L).2 = some e →
          (Decompress blob outNil init L).1 = init
          ∨ ∃ P t, gzBody blob = some (P, t)
              ∧ (decodePhase P t (if L ≤ 0 then defaultMaxDecompressedSize else L).toNat).1
                  = some ((Decompress blob outNil init L).1) :=
  ⟨compress_err_nil, fun blob outNil init L _ _ => decompress_dest blob outNil init L⟩

theorem c7_no_partial_amended_witness :
    (Compress .nilInterface).2 ≠ none
    ∧ (Compress .nilInterface).1 = []
    ∧ (Decompress [] false .null 5).2 = some ⟨.invalidParams, "compressedData cannot be empty"⟩
    ∧ ((Decompress [] false .null 5).1 = .null
        ∨ ∃ P t, gzBody [] = some (P, t)
            ∧ (decodePhase P t (if (5 : Int) ≤ 0 then defaultMaxDecompressedSize else 5).toNat).1
                = some ((Decompress [] false .null 5).1)) :=
  ⟨by decide, c7_no_partial_amended.1 .nilInterface (by decide), rfl,
    c7_no_partial_amended.2 [] false .null 5 ⟨.invalidParams, "compressedData cannot be empty"⟩
      rfl⟩

/-- C8: every byte sequence successfully returned by `Compress` starts with
the gzip magic bytes `0x1f 0x8b`. -/
theorem c8_magic_header (g : GoValue) (bs : List Nat) (h : Compress g = (bs, none)) :
    bs.take 2 = [31, 139] := by
  cases g with
  | nilInterface => exact absurd (congrArg Prod.snd h) (by simp [Compress])
  | unsupported t => exact absurd (congrArg Prod.snd h) (by simp [Compress])
  | nilPointer t =>
      have hbs : bs = gzipCompress (jsonEnc .null) := (congrArg Prod.fst h).symm
      rw [hbs]
      rfl
  | val v =>
      have hbs : bs = gzipCompress (jsonEnc v) := (congrArg Prod.fst h).symm
      rw [hbs]
      rfl

theorem c8_magic_header_witness :
    Compress (.val .null) = ((Compress (.val .null)).1, none)
    ∧ (Compress (.val .null)).1.take 2 = [31, 139] :=
  ⟨rfl, c8_magic_header (.val .null) (Compress (.val .null)).1 rfl⟩

/-- C9: the nil check rejects only the untyped nil interface — a non-nil
interface holding a typed nil pointer passes the check and `Compress` succeeds,
producing the compression of the JSON `null` literal, not `InvalidParams`. -/
theorem c9_typed_nil (t : String) :
    Compress (.nilPointer t) = (gzipCompress (jsonEnc .null), none)
    ∧ (Compress (.nilPointer t)).2 ≠ some ⟨.invalidParams, "data cannot be nil"⟩ :=
  ⟨rfl, nofun⟩

/-- C10: after a failed decode or a failed drain, the error classification
depends solely on whether the limited reader's remaining budget is zero:
budget spent means the `InvalidParams` size-limit error (whatever the real
cause), budget remaining means the phase's own `InternalServerError`.  On a
decode failure the destination keeps its prior contents; on a drain failure it
holds the value the decode already wrote. -/
theorem c10_limit_classification (blob : List Nat) (init : JValue) (L : Int)
    (P : List Nat) (t : GzTerm)
    (h0 : ¬ blob.length = 0) (hL : 0 < L) (hbody : gzBody blob = some (P, t)) :
    ((decodePhase P t L.toNat).1 = none → L.toNat - (decodePhase P t L.toNat).2 = 0 →
        Decompress blob false init L = (init, some ⟨.invalidParams, limitMsg L⟩))
    ∧ ((decodePhase P t L.toNat).1 = none → ¬ L.toNat - (decodePhase P t L.toNat).2 = 0 →
        Decompress blob false init L
          = (init, some ⟨.internalServerError, "failed to decode JSON"⟩))
    ∧ (∀ v, (decodePhase P t L.toNat).1 = some v →
        ∀ e cd, drainPhase (P.drop (decodePhase P t L.toNat).2) t
              (L.toNat - (decodePhase P t L.toNat).2) = (some e, cd) →
          (cd = 0 →
            Decompress blob false init L = (v, some ⟨.invalidParams, limitMsg L⟩))
          ∧ (¬ cd = 0 →
            Decompress blob false init L
              = (v, some ⟨.internalServerError, "failed to verify complete gzip stream"⟩))) := by
  have hm : ¬ L ≤ 0 := by omega
  have hD : Decompress blob false init L = afterGz P t init L := by
    simp [Decompress, h0, hbody, hm]
  refine ⟨?_, ?_, ?_⟩
  · intro h1 h2
    rcases hd : decodePhase P t L.toNat with ⟨o, c⟩
    have ho : o = none := by rw [hd] at h1; exact h1
    subst ho
    have hc : L.toNat - c = 0 := by rw [hd] at h2; exact h2
    rw [hD, afterGz_decode_none P t init L c hd, if_pos hc]
  · intro h1 h2
    rcases hd : decodePhase P t L.toNat with ⟨o, c⟩
    have ho : o = none := by rw [hd] at h1; exact h1
    subst ho
    have hc : ¬ L.toNat - c = 0 := by rw [hd] at h2; exact h2
    rw [hD, afterGz_decode_none P t init L c hd, if_neg hc]
  · intro v hv e cd hdr
    rcases hd : decodePhase P t L.toNat with ⟨o, c⟩
    have ho : o = some v := by rw [hd] at hv; exact hv
    subst ho
    have hdr2 : drainPhase (P.drop c) t (L.toNat - c) = (some e, cd) := by
      rw [hd] at hdr; exact hdr
    constructor
    · intro hcd
      rw [hD, afterGz_drain_some P t init L v c e cd hd hdr2, if_pos hcd]
    · intro hcd
      rw [hD, afterGz_drain_some P t init L v c e cd hd hdr2, if_neg hcd]

theorem c10_limit_classification_witness :
    (decodePhase (List.replicate 20 120) GzTerm.ok (10 : Int).toNat).1 = none
    ∧ (10 : Int).toNat - (decodePhase (List.replicate 20 120) GzTerm.ok (10 : Int).toNat).2 = 0
    ∧ Decompress (gzipCompress (List.replicate 20 120)) false .null 10
        = (.null, some ⟨.invalidParams, limitMsg 10⟩) :=
  ⟨rfl, rfl,
    (c10_limit_classification (gzipCompress (List.replicate 20 120)) .null 10
        (List.replicate 20 120) .ok (gzipCompress_len_ne (List.replicate 20 120))
        (by decide) (gzBody_compress (List.replicate 20 120))).1 rfl rfl⟩
